import Mathlib

/-!
Verification of the waypoint-generation core of the KML-to-waypoint
converter (`kml_to_wayp_v8.py`).  The Python code computes over IEEE
floats; the embedding idealises every float as a real number, keeping
every formula, guard and epsilon of the source.  Points are `(lat, lon)`
pairs of reals, exactly as the source stores them.
-/

noncomputable section

open Real

/-- Embedding of Python `math.radians`. -/
def toRadians (x : ℝ) : ℝ := x * Real.pi / 180

/-- Embedding of Python `math.degrees`. -/
def toDegrees (x : ℝ) : ℝ := x * 180 / Real.pi

/-- Python's float `%` operator for a positive modulus: `x - m * floor (x / m)`. -/
def pymod (x m : ℝ) : ℝ := x - m * ⌊x / m⌋

/-- Embedding of Python `math.atan2` (exact-real semantics, `atan2 0 0 = 0`). -/
def atan2 (y x : ℝ) : ℝ :=
  if 0 < x then Real.arctan (y / x)
  else if x < 0 then
    (if 0 ≤ y then Real.arctan (y / x) + Real.pi else Real.arctan (y / x) - Real.pi)
  else
    (if 0 < y then Real.pi / 2 else if y < 0 then -(Real.pi / 2) else 0)

/-- Haversine `a` term of `calculate_distance` (source lines 59-67). -/
def havTerm (p1 p2 : ℝ × ℝ) : ℝ :=
  Real.sin (toRadians (p2.1 - p1.1) / 2) ^ 2 +
    Real.cos (toRadians p1.1) * Real.cos (toRadians p2.1) *
      Real.sin (toRadians (p2.2 - p1.2) / 2) ^ 2

/-- Embedding of `KMLToWaypointV8.calculate_distance` (haversine, radius 6371000 m). -/
def calculate_distance (p1 p2 : ℝ × ℝ) : ℝ :=
  let a := havTerm p1 p2
  let c := 2 * atan2 (Real.sqrt a) (Real.sqrt (1 - a))
  6371000 * c

/-- The un-normalised forward-azimuth bearing computed inside
`find_longest_side_with_bearing` (source lines 96-107): `degrees (atan2 y x)`. -/
def bearing_raw (p1 p2 : ℝ × ℝ) : ℝ :=
  let lat1 := toRadians p1.1
  let lat2 := toRadians p2.1
  let dlon := toRadians p2.2 - toRadians p1.2
  let y := Real.sin dlon * Real.cos lat2
  let x := Real.cos lat1 * Real.sin lat2 - Real.sin lat1 * Real.cos lat2 * Real.cos dlon
  toDegrees (atan2 y x)

/-- Normalised bearing `(bearing + 360) % 360` (source line 108). -/
def bearing_deg (p1 p2 : ℝ × ℝ) : ℝ := pymod (bearing_raw p1 p2 + 360) 360

/-- Length of polygon edge `i` (edge from vertex `i` to vertex `(i+1) % n`). -/
def edgeLen (p : List (ℝ × ℝ)) (i : ℕ) : ℝ :=
  calculate_distance (p.getD i (0, 0)) (p.getD ((i + 1) % p.length) (0, 0))

/-- Normalised bearing of polygon edge `i`. -/
def edgeBrg (p : List (ℝ × ℝ)) (i : ℕ) : ℝ :=
  bearing_deg (p.getD i (0, 0)) (p.getD ((i + 1) % p.length) (0, 0))

/-- Accumulator of the `find_longest_side_with_bearing` loop:
`(longest_side_index, max_length, best_bearing, best_start, best_end)`. -/
structure LSState where
  idx : ℕ
  len : ℝ
  brg : ℝ
  sp : ℝ × ℝ
  ep : ℝ × ℝ

/-- One iteration of the `find_longest_side_with_bearing` loop (source lines 90-117):
update the accumulator when `length > max_length` (strict). -/
def ls_step (p : List (ℝ × ℝ)) (st : LSState) (i : ℕ) : LSState :=
  if st.len < edgeLen p i then
    ⟨i, edgeLen p i, edgeBrg p i, p.getD i (0, 0), p.getD ((i + 1) % p.length) (0, 0)⟩
  else st

/-- Embedding of `find_longest_side_with_bearing` (source lines 74-120). -/
def find_longest_side_with_bearing (p : List (ℝ × ℝ)) : LSState :=
  if p.length < 3 then
    ⟨0, 0, 0, p.getD 0 (0, 0), if 1 < p.length then p.getD 1 (0, 0) else p.getD 0 (0, 0)⟩
  else
    (List.range p.length).foldl (ls_step p) ⟨0, 0, 0, p.getD 0 (0, 0), p.getD 1 (0, 0)⟩

/-- Arithmetic-mean centroid used by `create_buffer_polygon` (source lines 583-584). -/
def centroidOf (p : List (ℝ × ℝ)) : ℝ × ℝ :=
  ((p.map Prod.fst).sum / p.length, (p.map Prod.snd).sum / p.length)

/-- Euclidean norm of a lat/lon displacement, as `math.sqrt(a**2 + b**2)`. -/
def vecNorm (a b : ℝ) : ℝ := Real.sqrt (a ^ 2 + b ^ 2)

/-- Per-vertex move of `create_buffer_polygon` (source lines 587-599). -/
def buffer_move (bd : ℝ) (c v : ℝ × ℝ) : ℝ × ℝ :=
  let tlat := c.1 - v.1
  let tlon := c.2 - v.2
  let d := vecNorm tlat tlon
  if 0 < d then (v.1 + tlat / d * bd, v.2 + tlon / d * bd) else v

/-- Embedding of `create_buffer_polygon` (source lines 574-602). -/
def create_buffer_polygon (bd : ℝ) (p : List (ℝ × ℝ)) : List (ℝ × ℝ) :=
  if p.length < 3 then p else p.map (buffer_move bd (centroidOf p))

/-- Minimum latitude of a polygon (`min(lats)`, source line 608). -/
def minLatOf : List (ℝ × ℝ) → ℝ
  | [] => 0
  | q :: t => t.foldl (fun m r => min m r.1) q.1

/-- Maximum latitude of a polygon. -/
def maxLatOf : List (ℝ × ℝ) → ℝ
  | [] => 0
  | q :: t => t.foldl (fun m r => max m r.1) q.1

/-- Minimum longitude of a polygon. -/
def minLonOf : List (ℝ × ℝ) → ℝ
  | [] => 0
  | q :: t => t.foldl (fun m r => min m r.2) q.2

/-- Maximum longitude of a polygon. -/
def maxLonOf : List (ℝ × ℝ) → ℝ
  | [] => 0
  | q :: t => t.foldl (fun m r => max m r.2) q.2

/-- Membership of a point in the polygon's bounding box
(`get_polygon_bounds`, source lines 604-608); formalises the spec's
"inside the polygon's bounding box". -/
def inBounds (p : List (ℝ × ℝ)) (q : ℝ × ℝ) : Prop :=
  minLatOf p ≤ q.1 ∧ q.1 ≤ maxLatOf p ∧ minLonOf p ≤ q.2 ∧ q.2 ≤ maxLonOf p

/-- The four corners returned by `find_polygon_corners`. -/
structure CornersT where
  tr : ℝ × ℝ
  tl : ℝ × ℝ
  bl : ℝ × ℝ
  br : ℝ × ℝ

/-- Vertex of `p` minimising Euclidean lat/lon distance to `target`, first wins on
ties (the strict `<` update of `find_polygon_corners`, source lines 151-174). -/
def argmin_corner (target : ℝ × ℝ) : List (ℝ × ℝ) → ℝ × ℝ
  | [] => (0, 0)
  | q :: t =>
    (t.foldl
      (fun (acc : (ℝ × ℝ) × ℝ) r =>
        let dr := Real.sqrt ((r.1 - target.1) ^ 2 + (r.2 - target.2) ^ 2)
        if dr < acc.2 then (r, dr) else acc)
      (q, Real.sqrt ((q.1 - target.1) ^ 2 + (q.2 - target.2) ^ 2))).1

/-- Embedding of `find_polygon_corners` (source lines 122-188); the empty dict
returned for degenerate polygons becomes `none`. -/
def find_polygon_corners (p : List (ℝ × ℝ)) : Option CornersT :=
  if p.length < 3 then none
  else
    some ⟨argmin_corner (maxLatOf p, maxLonOf p) p,
          argmin_corner (maxLatOf p, minLonOf p) p,
          argmin_corner (minLatOf p, minLonOf p) p,
          argmin_corner (minLatOf p, maxLonOf p) p⟩

/-- Embedding of `point_at_bearing_and_distance` (spherical direct formula,
source lines 393-409). -/
def point_at_bearing_and_distance (lat lon brg dist : ℝ) : ℝ × ℝ :=
  let R : ℝ := 6371000
  let lat1 := toRadians lat
  let lon1 := toRadians lon
  let br := toRadians brg
  let lat2 := Real.arcsin (Real.sin lat1 * Real.cos (dist / R) +
    Real.cos lat1 * Real.sin (dist / R) * Real.cos br)
  let lon2 := lon1 + atan2 (Real.sin br * Real.sin (dist / R) * Real.cos lat1)
    (Real.cos (dist / R) - Real.sin lat1 * Real.sin lat2)
  (toDegrees lat2, toDegrees lon2)

/-- Parametric denominator of `line_intersection` (source line 478). -/
def denomOf (p1 p2 p3 p4 : ℝ × ℝ) : ℝ :=
  (p1.1 - p2.1) * (p3.2 - p4.2) - (p1.2 - p2.2) * (p3.1 - p4.1)

/-- Scan-line parameter `t` of `line_intersection` (source line 482). -/
def tParam (p1 p2 p3 p4 : ℝ × ℝ) : ℝ :=
  ((p1.1 - p3.1) * (p3.2 - p4.2) - (p1.2 - p3.2) * (p3.1 - p4.1)) / denomOf p1 p2 p3 p4

/-- Edge parameter `u` of `line_intersection` (source line 483). -/
def uParam (p1 p2 p3 p4 : ℝ × ℝ) : ℝ :=
  -((p1.1 - p2.1) * (p1.2 - p3.2) - (p1.2 - p2.2) * (p1.1 - p3.1)) / denomOf p1 p2 p3 p4

/-- Embedding of `line_intersection` (source lines 467-490): `none` when the
denominator is below `1e-10` in absolute value or the edge parameter `u` is
outside `[0,1]`; the scan parameter `t` is never constrained. -/
def line_intersection (p1 p2 p3 p4 : ℝ × ℝ) : Option (ℝ × ℝ) :=
  if |denomOf p1 p2 p3 p4| < 1e-10 then none
  else if 0 ≤ uParam p1 p2 p3 p4 ∧ uParam p1 p2 p3 p4 ≤ 1 then
    some (p1.1 + tParam p1 p2 p3 p4 * (p2.1 - p1.1),
          p1.2 + tParam p1 p2 p3 p4 * (p2.2 - p1.2))
  else none

/-- Raw per-edge intersections of `line_polygon_intersections` before
deduplication (source lines 446-452). -/
def edge_hits (p1 p2 : ℝ × ℝ) (poly : List (ℝ × ℝ)) : List (ℝ × ℝ) :=
  (List.range poly.length).filterMap
    (fun i => line_intersection p1 p2 (poly.getD i (0, 0)) (poly.getD ((i + 1) % poly.length) (0, 0)))

open Classical in
/-- One step of the duplicate-removal loop of `line_polygon_intersections`
(source lines 455-463): drop the point when an already-kept point is within
`1e-8` in both coordinates. -/
def dedup_step (acc : List (ℝ × ℝ)) (pt : ℝ × ℝ) : List (ℝ × ℝ) :=
  if ∃ e ∈ acc, |pt.1 - e.1| < 1e-8 ∧ |pt.2 - e.2| < 1e-8 then acc else acc ++ [pt]

/-- Embedding of `line_polygon_intersections` (source lines 439-465). -/
def line_polygon_intersections (p1 p2 : ℝ × ℝ) (poly : List (ℝ × ℝ)) : List (ℝ × ℝ) :=
  (edge_hits p1 p2 poly).foldl dedup_step []

/-- The two pre-extended probe endpoints of `get_line_intersections_only`
(source lines 417-425): 2000 m out along `brg` and along `(brg + 180) % 360`. -/
def probe_ends (plat plon brg : ℝ) : (ℝ × ℝ) × (ℝ × ℝ) :=
  (point_at_bearing_and_distance plat plon brg 2000,
   point_at_bearing_and_distance plat plon (pymod (brg + 180) 360) 2000)

/-- Embedding of `get_line_intersections_only` (source lines 411-437): clip the
probe to the polygon, return the intersections sorted by distance from the first
probe endpoint when at least two survive, else `[]`.  Python's stable `list.sort`
is embedded as the stable `insertionSort`. -/
def get_line_intersections_only (plat plon brg : ℝ) (poly : List (ℝ × ℝ)) : List (ℝ × ℝ) :=
  let e := probe_ends plat plon brg
  let inters := line_polygon_intersections e.1 e.2 poly
  if 2 ≤ inters.length then
    List.insertionSort (fun a b => calculate_distance e.1 a ≤ calculate_distance e.1 b) inters
  else []

/-- One generated scan line (the dict built at source lines 253-258). -/
structure ScanLine where
  offset : ℝ
  inters : List (ℝ × ℝ)
  startP : ℝ × ℝ
  endP : ℝ × ℝ

/-- The clipped intersections of the probe at signed offset `off` from the bounding
box centre along the perpendicular bearing (source lines 238-245). -/
def probe_inters_at (cLat cLon perpBrg mainBrg : ℝ) (poly : List (ℝ × ℝ)) (off : ℝ) :
    List (ℝ × ℝ) :=
  let op := point_at_bearing_and_distance cLat cLon perpBrg off
  get_line_intersections_only op.1 op.2 mainBrg poly

/-- Build the scan line at signed offset `off` when the probe keeps at least two
intersection points (source lines 247-258), else `none`.  The retained list is
re-sorted by haversine distance from `bearing_start_point` — the probe's offset
point — (source lines 248-250, Python's stable `list.sort` as `insertionSort`)
and the stored `start_point`/`end_point` are that re-sorted list's first and
last entries. -/
def mk_scan_line (cLat cLon perpBrg mainBrg : ℝ) (poly : List (ℝ × ℝ)) (off : ℝ) :
    Option ScanLine :=
  let op := point_at_bearing_and_distance cLat cLon perpBrg off
  let li := probe_inters_at cLat cLon perpBrg mainBrg poly off
  if 2 ≤ li.length then
    let srt := List.insertionSort
      (fun a b => calculate_distance op a ≤ calculate_distance op b) li
    some ⟨off, srt, srt.headD (0, 0), srt.getLastD (0, 0)⟩
  else none

/-- Fuelled embedding of the outward sweep `while offset_distance <= max_extend`
(source lines 229-260) in one direction `dir`.  Each recursive call is one loop
iteration; exhausted fuel (`none`) marks a run that has not yet terminated, so the
non-terminating `spacing ≤ 0` loop is represented by `none` at every fuel. -/
def sweepAux (mk : ℝ → Option ScanLine) (s M dir : ℝ) : ℕ → ℝ → Option (List ScanLine)
  | 0, off => if M < off then some [] else none
  | f + 1, off =>
    if M < off then some []
    else if off = 0 ∧ dir = -1 then sweepAux mk s M dir f (off + s)
    else (sweepAux mk s M dir f (off + s)).map (fun rest => (mk (off * dir)).toList ++ rest)

/-- The unsigned offsets the sweep visits (same guard/skip structure as `sweepAux`,
collecting the signed offset of every probe the loop actually builds). -/
def sweptOffsets (s M dir : ℝ) : ℕ → ℝ → Option (List ℝ)
  | 0, off => if M < off then some [] else none
  | f + 1, off =>
    if M < off then some []
    else if off = 0 ∧ dir = -1 then sweptOffsets s M dir f (off + s)
    else (sweptOffsets s M dir f (off + s)).map (fun rest => off * dir :: rest)

/-- Fuel used to run the sweep: one unit per loop iteration of the terminating
(`spacing > 0`) run, `⌊M/s⌋ + 1` iterations per direction. -/
def sweepFuel (s M : ℝ) : ℕ := (⌊M / s⌋).toNat + 1

/-- Stable ascending sort of the collected lines by signed offset
(`all_lines.sort(key=lambda x: x['offset'])`, source line 263). -/
def sortLines (lines : List ScanLine) : List ScanLine :=
  List.insertionSort (fun a b : ScanLine => a.offset ≤ b.offset) lines

/-- Configuration of the converter: line spacing and buffer distance in decimal
degrees, optional home position (constructor arguments, source lines 16-35). -/
structure Config where
  spacing : ℝ
  buffer_distance : ℝ
  home_position : Option (ℝ × ℝ)

/-- The geometric quantities `generate_parallel_lines_to_longest_side` derives
before sweeping (source lines 198-227): buffered polygon, longest-side result,
perpendicular bearing, bounding-box centre, spacing in metres, and the sweep
radius `max_extend` (half the bounding-box diagonal). -/
structure SweepGeom where
  bp : List (ℝ × ℝ)
  ls : LSState
  perp : ℝ
  cLat : ℝ
  cLon : ℝ
  s : ℝ
  M : ℝ

/-- Compute the sweep geometry of a run (source lines 198-227). -/
def sweepSetup (cfg : Config) (p : List (ℝ × ℝ)) : SweepGeom :=
  let bp := create_buffer_polygon cfg.buffer_distance p
  let r := find_longest_side_with_bearing bp
  ⟨bp, r, pymod (r.brg + 90) 360,
    (minLatOf bp + maxLatOf bp) / 2, (minLonOf bp + maxLonOf bp) / 2,
    cfg.spacing * 111000,
    calculate_distance (minLatOf bp, minLonOf bp) (maxLatOf bp, maxLonOf bp) / 2⟩

/-- The scan-line builder used by the sweep for a given run. -/
def mkLineOf (cfg : Config) (p : List (ℝ × ℝ)) : ℝ → Option ScanLine :=
  let q := sweepSetup cfg p
  mk_scan_line q.cLat q.cLon q.perp q.ls.brg q.bp

/-- The collected, offset-sorted scan lines of a run (`all_lines` after source
line 263): the direction `-1` lines, then the direction `+1` lines, sorted. -/
def allLinesOf (cfg : Config) (p : List (ℝ × ℝ)) : Option (List ScanLine) :=
  let q := sweepSetup cfg p
  match sweepAux (mkLineOf cfg p) q.s q.M (-1) (sweepFuel q.s q.M) 0,
        sweepAux (mkLineOf cfg p) q.s q.M 1 (sweepFuel q.s q.M) 0 with
  | some a, some b => some (sortLines (a ++ b))
  | _, _ => none

/-- Greedy continuation of the waypoint build (source lines 365-376): every line
after the first starts at whichever endpoint is strictly closer to the previously
emitted waypoint. -/
def greedy_build_rest (prev : ℝ × ℝ) : List ScanLine → List (ℝ × ℝ)
  | [] => []
  | l :: ls =>
    if calculate_distance prev l.startP < calculate_distance prev l.endP then
      l.startP :: l.endP :: greedy_build_rest l.endP ls
    else
      l.endP :: l.startP :: greedy_build_rest l.startP ls

/-- Waypoint build over the chosen line order (source lines 352-376); `sfe` is
`start_from_end` for the first line. -/
def build_walk : List ScanLine → Bool → List (ℝ × ℝ)
  | [], _ => []
  | l :: ls, sfe =>
    if sfe then l.endP :: l.startP :: greedy_build_rest l.startP ls
    else l.startP :: l.endP :: greedy_build_rest l.endP ls

/-- Python `min(pattern_starts, key=...)` (source lines 315-324): first minimum
wins; candidates are tagged 0..3 for
`first_start`, `first_end`, `last_start`, `last_end`. -/
def closest_cand (tr : ℝ × ℝ) (cands : List ((ℝ × ℝ) × ℕ)) : (ℝ × ℝ) × ℕ :=
  match cands with
  | [] => ((0, 0), 0)
  | c :: t =>
    t.foldl (fun best cand =>
      if calculate_distance cand.1 tr < calculate_distance best.1 tr then cand else best) c

/-- Line order and first-line orientation chosen by the corner analysis
(source lines 299-350): corner logic only when both a home position and the
corner dict are available, else the fallback forward order. -/
def plan_order (lines : List ScanLine) (first lastL : ScanLine) (corners : Option CornersT)
    (home : Option (ℝ × ℝ)) : List ScanLine × Bool :=
  match home, corners with
  | some _, some cs =>
    let cl := closest_cand cs.tr
      [(first.startP, 0), (first.endP, 1), (lastL.startP, 2), (lastL.endP, 3)]
    if cl.2 = 0 then (lines, false)
    else if cl.2 = 1 then (lines, true)
    else if cl.2 = 3 then (lines.reverse, true)
    else (lines.reverse, false)
  | _, _ => (lines, false)

/-- The waypoint sequence before the final whole-pattern reversal check
(source lines 276-376). -/
def built_waypoints (lines : List ScanLine) (corners : Option CornersT)
    (home : Option (ℝ × ℝ)) : List (ℝ × ℝ) :=
  match lines with
  | [] => []
  | f :: rest =>
    let pr := plan_order (f :: rest) f ((f :: rest).getLastD f) corners home
    build_walk pr.1 pr.2

/-- Final whole-pattern reversal (source lines 378-390): with a home position and
a non-empty sequence, reverse when `distance(last, home) < distance(first, home) * 0.8`. -/
def apply_home_reversal (home : Option (ℝ × ℝ)) (w : List (ℝ × ℝ)) : List (ℝ × ℝ) :=
  match home with
  | none => w
  | some h =>
    match w with
    | [] => []
    | w0 :: _ =>
      if calculate_distance (w.getLastD (0, 0)) h < calculate_distance w0 h * 0.8 then
        w.reverse
      else w

/-- Embedding of `optimize_line_ordering_for_corners` (source lines 272-391). -/
def optimize_line_ordering_for_corners (lines : List ScanLine) (corners : Option CornersT)
    (home : Option (ℝ × ℝ)) : List (ℝ × ℝ) :=
  apply_home_reversal home (built_waypoints lines corners home)

/-- The path orderer applied to an unordered line set: stable offset-sort
(source line 263) followed by `optimize_line_ordering_for_corners`. -/
def path_order (lines : List ScanLine) (corners : Option CornersT)
    (home : Option (ℝ × ℝ)) : List (ℝ × ℝ) :=
  optimize_line_ordering_for_corners (sortLines lines) corners home

/-- Embedding of `generate_parallel_lines_to_longest_side` (source lines 190-270).
`none` marks the non-terminating sweep of a non-positive spacing; a terminating
run returns `some` waypoint list. -/
def generate_parallel_lines_to_longest_side (cfg : Config) (p : List (ℝ × ℝ)) :
    Option (List (ℝ × ℝ)) :=
  if p.length < 3 then some []
  else
    match allLinesOf cfg p with
    | some lines =>
      some (optimize_line_ordering_for_corners lines
        (find_polygon_corners (create_buffer_polygon cfg.buffer_distance p)) cfg.home_position)
    | none => none

/-- Signed side of a point `v` relative to the oriented infinite line through
`a` and `b` in the lat/lon plane; formalises the spec's "the probe line misses
the polygon". -/
def sideSign (a b v : ℝ × ℝ) : ℝ :=
  (b.1 - a.1) * (v.2 - a.2) - (b.2 - a.2) * (v.1 - a.1)

/-- The unit square used as a concrete polygon in counterexamples and witnesses. -/
def sqPoly : List (ℝ × ℝ) := [(0, 0), (1, 0), (1, 1), (0, 1)]

/-- Euclidean lat/lon distance from vertex `i` of a polygon to its arithmetic-mean
centroid, written with the same `sqrt` expression the buffer computes. -/
def toCentroidNorm (p : List (ℝ × ℝ)) (i : ℕ) : ℝ :=
  vecNorm ((centroidOf p).1 - (p.getD i (0, 0)).1) ((centroidOf p).2 - (p.getD i (0, 0)).2)

/-- The polygon of the C1 counterexample: centroid `(0.3, 0.4)`, first vertex at
distance `0.5` from it. -/
def c1Poly : List (ℝ × ℝ) := [(0, 0), (1, 0), (0, 1), (0.2, 0.6)]

/-- The 2×2 square used as the C1 witness polygon (centroid `(1,1)`). -/
def sq2Poly : List (ℝ × ℝ) := [(0, 0), (2, 0), (2, 2), (0, 2)]

/-- A single concrete scan line from `(0,0)` to `(0,1)`. -/
def c4Line : ScanLine :=
  ⟨0, [((0 : ℝ), (0 : ℝ)), ((0 : ℝ), (1 : ℝ))], ((0 : ℝ), (0 : ℝ)), ((0 : ℝ), (1 : ℝ))⟩

/-- First line of the C2 counterexample. -/
def c2L1 : ScanLine :=
  ⟨0, [((0 : ℝ), (0 : ℝ)), ((0 : ℝ), (1 : ℝ))], ((0 : ℝ), (0 : ℝ)), ((0 : ℝ), (1 : ℝ))⟩

/-- Second line of the C2 counterexample: its end point coincides with the first
line's end point, so the greedy step emits it as `(end, start)`. -/
def c2L2 : ScanLine :=
  ⟨1, [((1 : ℝ), (0 : ℝ)), ((0 : ℝ), (1 : ℝ))], ((1 : ℝ), (0 : ℝ)), ((0 : ℝ), (1 : ℝ))⟩

/-- The clipped (post-deduplication) intersection set of the probe built at
signed offset `off` of a run — the set whose size decides retention. -/
def probe_clip_at (cfg : Config) (p : List (ℝ × ℝ)) (off : ℝ) : List (ℝ × ℝ) :=
  let g := sweepSetup cfg p
  let op := point_at_bearing_and_distance g.cLat g.cLon g.perp off
  line_polygon_intersections (probe_ends op.1 op.2 g.ls.brg).1
    (probe_ends op.1 op.2 g.ls.brg).2 g.bp

/-- The configuration used for witnesses: spacing 1 degree, no buffer, no home. -/
def cfgW : Config := ⟨1, 0, none⟩

/-- The degenerate witness polygon: three coincident vertices. -/
def pW : List (ℝ × ℝ) := [(0, 0), (0, 0), (0, 0)]

/-- A line's two-waypoint contribution to the flight path, in one of its two
orientations. -/
def emitBlock (rev : Bool) (l : ScanLine) : List (ℝ × ℝ) :=
  if rev then [l.endP, l.startP] else [l.startP, l.endP]

/-- Latitude (in degrees) of the first pre-extended probe endpoint of a probe
issued from the origin at bearing `0`: 2000 m along the meridian on the
6371 km sphere, converted back to degrees (about `0.01799`). -/
def betaC7 : ℝ := toDegrees (2000 / 6371000)

/-- Polygon whose equatorial probe at offset 0 keeps four distinct intersection
points on the meridian `lon = 0`: three meridian-crossing vertical edges at
latitudes `1`, `5` and `betaC7 - 5`, plus the closing edge, which crosses at
latitude `(betaC7 - 4) / 2`. -/
def c7Poly : List (ℝ × ℝ) :=
  [(1, -1), (1, 1), (5, 1), (5, -1), (betaC7 - 5, -1), (betaC7 - 5, 1)]

/-- The scan line the code builds from `c7Poly` at offset `0`: the four kept
intersections re-sorted by distance from the offset point `(0, 0)`, with the
nearest (`(1, 0)`) and farthest (`(5, 0)`) stored as the endpoints. -/
def c7Line : ScanLine :=
  ⟨0, [((1 : ℝ), (0 : ℝ)), ((betaC7 - 4) / 2, 0), (betaC7 - 5, 0), (5, 0)],
    (1, 0), (5, 0)⟩

/-! ### Sign lemmas for `atan2` and the haversine distance -/

theorem atan2_nonneg {y : ℝ} (x : ℝ) (hy : 0 ≤ y) : 0 ≤ atan2 y x := by
  unfold atan2
  split_ifs with h1 h2 h3 h4
  · have h := Real.arctan_strictMono.monotone (div_nonneg hy h1.le)
    rwa [Real.arctan_zero] at h
  · nlinarith [Real.neg_pi_div_two_lt_arctan (y / x), Real.pi_pos]
  · positivity
  · exact absurd h4 (not_lt.mpr hy)
  · exact le_refl 0

theorem atan2_pos {y : ℝ} (x : ℝ) (hy : 0 < y) : 0 < atan2 y x := by
  unfold atan2
  split_ifs with h1 h2 h3
  · have h := Real.arctan_strictMono (div_pos hy h1)
    rwa [Real.arctan_zero] at h
  · nlinarith [Real.neg_pi_div_two_lt_arctan (y / x), Real.pi_pos]
  · exact absurd hy.le h3
  · positivity

theorem atan2_zero_right {x : ℝ} (hx : 0 < x) : atan2 0 x = 0 := by
  unfold atan2
  rw [if_pos hx, zero_div, Real.arctan_zero]

/-- The haversine `a` term as a function of the latitude sum/difference and the
longitude difference (half-angle and product-to-sum identities). -/
theorem havTerm_eq (p1 p2 : ℝ × ℝ) :
    havTerm p1 p2 =
      (1 - Real.cos (toRadians p2.1 - toRadians p1.1)) / 2 +
        (Real.cos (toRadians p2.1 - toRadians p1.1) +
            Real.cos (toRadians p2.1 + toRadians p1.1)) / 2 *
          ((1 - Real.cos (toRadians p2.2 - toRadians p1.2)) / 2) := by
  have hΔ : toRadians (p2.1 - p1.1) = toRadians p2.1 - toRadians p1.1 := by
    unfold toRadians; ring
  have hδ : toRadians (p2.2 - p1.2) = toRadians p2.2 - toRadians p1.2 := by
    unfold toRadians; ring
  have e1 : (2 : ℝ) * (toRadians (p2.1 - p1.1) / 2) = toRadians p2.1 - toRadians p1.1 := by
    rw [hΔ]; ring
  have e2 : (2 : ℝ) * (toRadians (p2.2 - p1.2) / 2) = toRadians p2.2 - toRadians p1.2 := by
    rw [hδ]; ring
  have h1 : Real.sin (toRadians (p2.1 - p1.1) / 2) ^ 2 =
      1 / 2 - Real.cos (toRadians p2.1 - toRadians p1.1) / 2 := by
    rw [Real.sin_sq_eq_half_sub, e1]
  have h2 : Real.sin (toRadians (p2.2 - p1.2) / 2) ^ 2 =
      1 / 2 - Real.cos (toRadians p2.2 - toRadians p1.2) / 2 := by
    rw [Real.sin_sq_eq_half_sub, e2]
  have h3 : Real.cos (toRadians p1.1) * Real.cos (toRadians p2.1) =
      (Real.cos (toRadians p2.1 - toRadians p1.1) +
        Real.cos (toRadians p2.1 + toRadians p1.1)) / 2 := by
    rw [Real.cos_sub, Real.cos_add]; ring
  unfold havTerm
  rw [h1, h2, h3]
  ring

theorem havTerm_nonneg (p1 p2 : ℝ × ℝ) : 0 ≤ havTerm p1 p2 := by
  rw [havTerm_eq]
  set cΔ := Real.cos (toRadians p2.1 - toRadians p1.1) with hcΔ
  set cσ := Real.cos (toRadians p2.1 + toRadians p1.1) with hcσ
  set cδ := Real.cos (toRadians p2.2 - toRadians p1.2) with hcδ
  have h1 : cΔ ≤ 1 := Real.cos_le_one _
  have h2 : -1 ≤ cσ := Real.neg_one_le_cos _
  have h3 : cδ ≤ 1 := Real.cos_le_one _
  have h4 : -1 ≤ cδ := Real.neg_one_le_cos _
  nlinarith [mul_nonneg (by linarith : (0:ℝ) ≤ 1 - cΔ) (by linarith : (0:ℝ) ≤ 1 + cδ),
    mul_nonneg (by linarith : (0:ℝ) ≤ 1 + cσ) (by linarith : (0:ℝ) ≤ 1 - cδ)]

theorem calculate_distance_def (p1 p2 : ℝ × ℝ) :
    calculate_distance p1 p2 =
      6371000 * (2 * atan2 (Real.sqrt (havTerm p1 p2)) (Real.sqrt (1 - havTerm p1 p2))) := rfl

theorem calculate_distance_nonneg (p1 p2 : ℝ × ℝ) : 0 ≤ calculate_distance p1 p2 := by
  rw [calculate_distance_def]
  have h := atan2_nonneg (Real.sqrt (1 - havTerm p1 p2)) (Real.sqrt_nonneg (havTerm p1 p2))
  linarith

theorem calculate_distance_pos_of_havTerm {p1 p2 : ℝ × ℝ} (h : 0 < havTerm p1 p2) :
    0 < calculate_distance p1 p2 := by
  rw [calculate_distance_def]
  have h2 := atan2_pos (Real.sqrt (1 - havTerm p1 p2)) (Real.sqrt_pos.mpr h)
  linarith

theorem calculate_distance_of_havTerm_zero {p1 p2 : ℝ × ℝ} (h : havTerm p1 p2 = 0) :
    calculate_distance p1 p2 = 0 := by
  rw [calculate_distance_def, h, Real.sqrt_zero, sub_zero, Real.sqrt_one,
    atan2_zero_right one_pos]
  ring

theorem havTerm_self (p : ℝ × ℝ) : havTerm p p = 0 := by
  unfold havTerm toRadians
  simp

theorem calculate_distance_self (p : ℝ × ℝ) : calculate_distance p p = 0 :=
  calculate_distance_of_havTerm_zero (havTerm_self p)

theorem havTerm_zero_of_dist_zero {p1 p2 : ℝ × ℝ} (h : calculate_distance p1 p2 = 0) :
    havTerm p1 p2 = 0 := by
  by_contra hne
  have hpos : 0 < havTerm p1 p2 :=
    lt_of_le_of_ne (havTerm_nonneg p1 p2) (Ne.symm hne)
  exact absurd h (ne_of_gt (calculate_distance_pos_of_havTerm hpos))

/-! ### C6 — the `line_intersection` none/some contract -/

/-- C6: `line_intersection` returns no point exactly when the parametric
denominator is below `1e-10` in absolute value (parallel) or the edge parameter
`u` lies outside `[0,1]`; and every returned point lies on the infinite line
through `p1` and `p2` (the scan parameter `t` is never constrained). -/
theorem C6_line_intersection_contract (p1 p2 p3 p4 : ℝ × ℝ) :
    (line_intersection p1 p2 p3 p4 = none ↔
      |denomOf p1 p2 p3 p4| < 1e-10 ∨
        uParam p1 p2 p3 p4 < 0 ∨ 1 < uParam p1 p2 p3 p4) ∧
    ∀ q, line_intersection p1 p2 p3 p4 = some q →
      ∃ t, q = (p1.1 + t * (p2.1 - p1.1), p1.2 + t * (p2.2 - p1.2)) := by
  unfold line_intersection
  split_ifs with h1 h2
  · refine ⟨⟨fun _ => Or.inl h1, fun _ => rfl⟩, fun q hq => absurd hq (by simp)⟩
  · constructor
    · constructor
      · intro h; exact absurd h (by simp)
      · rintro (h | h | h)
        · exact absurd h h1
        · exact absurd h (not_lt.mpr h2.1)
        · exact absurd h (not_lt.mpr h2.2)
    · intro q hq
      exact ⟨tParam p1 p2 p3 p4, (Option.some_injective _ hq).symm⟩
  · constructor
    · constructor
      · intro _
        rcases not_and_or.mp h2 with h | h
        · exact Or.inr (Or.inl (not_le.mp h))
        · exact Or.inr (Or.inr (not_le.mp h))
      · intro _; rfl
    · intro q hq; exact absurd hq (by simp)

/-! ### C3 — clipping a probe that misses the polygon -/

theorem denom_eq_sideSign (a b p3 p4 : ℝ × ℝ) :
    denomOf a b p3 p4 = sideSign a b p4 - sideSign a b p3 := by
  unfold denomOf sideSign; ring

theorem uParam_eq_sideSign (a b p3 p4 : ℝ × ℝ) :
    uParam a b p3 p4 = -sideSign a b p3 / denomOf a b p3 p4 := by
  unfold uParam sideSign denomOf; ring_nf

/-- When both edge endpoints lie strictly on the same side of the infinite probe
line, `line_intersection` rejects the edge. -/
theorem line_intersection_none_of_same_side {a b p3 p4 : ℝ × ℝ}
    (h : (0 < sideSign a b p3 ∧ 0 < sideSign a b p4) ∨
      (sideSign a b p3 < 0 ∧ sideSign a b p4 < 0)) :
    line_intersection a b p3 p4 = none := by
  unfold line_intersection
  split_ifs with h1 h2
  · rfl
  · exfalso
    have hd : denomOf a b p3 p4 ≠ 0 := by
      intro h0
      exact h1 (by rw [h0]; norm_num)
    rw [uParam_eq_sideSign] at h2
    set s3 := sideSign a b p3 with hs3
    set s4 := sideSign a b p4 with hs4
    set d := denomOf a b p3 p4 with hdd
    have hdval : d = s4 - s3 := denom_eq_sideSign a b p3 p4
    have hmul : -s3 / d * d ^ 2 = -s3 * d := by
      field_simp
      ring
    have hA : 0 ≤ -s3 * d := by
      nlinarith [mul_nonneg h2.1 (sq_nonneg d)]
    have hB : -s3 * d ≤ d ^ 2 := by
      nlinarith [mul_le_mul_of_nonneg_right h2.2 (sq_nonneg d)]
    rcases h with ⟨h3, h4⟩ | ⟨h3, h4⟩
    · have hdle : d ≤ 0 := by nlinarith
      have hdlt : d < 0 := hdle.lt_of_ne hd
      nlinarith
    · have hdge : 0 ≤ d := by nlinarith
      have hdgt : 0 < d := hdge.lt_of_ne' (by exact hd)
      nlinarith
  · rfl

/-- C3 (amended): `line_polygon_intersections` treats the probe as an infinite
line, so bounding-box exclusion of the probe endpoints alone guarantees nothing;
what does hold is that clipping returns the empty set whenever every polygon
vertex lies strictly on one side of the infinite line through the probe's
endpoints. -/
theorem C3_clip_empty_of_strict_side (a b : ℝ × ℝ) (poly : List (ℝ × ℝ))
    (h : (∀ v ∈ poly, 0 < sideSign a b v) ∨ (∀ v ∈ poly, sideSign a b v < 0)) :
    line_polygon_intersections a b poly = [] := by
  unfold line_polygon_intersections
  have hs : edge_hits a b poly = [] := by
    unfold edge_hits
    rw [List.filterMap_eq_nil_iff]
    intro i hi
    have hlen : i < poly.length := List.mem_range.mp hi
    have hpos : 0 < poly.length := lt_of_le_of_lt (Nat.zero_le i) hlen
    have h3 : poly.getD i (0, 0) ∈ poly := by
      rw [List.getD_eq_getElem poly (0, 0) hlen]
      exact List.getElem_mem hlen
    have h4 : poly.getD ((i + 1) % poly.length) (0, 0) ∈ poly := by
      rw [List.getD_eq_getElem poly (0, 0) (Nat.mod_lt _ hpos)]
      exact List.getElem_mem (Nat.mod_lt _ hpos)
    apply line_intersection_none_of_same_side
    rcases h with h | h
    · exact Or.inl ⟨h _ h3, h _ h4⟩
    · exact Or.inr ⟨h _ h3, h _ h4⟩
  rw [hs]
  rfl

/-- C3 (counterexample): the probe segment from `(0.5, 2)` to `(0.5, 3)` lies
fully outside the unit square's bounding box, yet clipping it against the square
returns two intersection points, because only the edge parameter is constrained. -/
theorem C3_counterexample :
    ¬ inBounds sqPoly ((0.5 : ℝ), 2) ∧ ¬ inBounds sqPoly ((0.5 : ℝ), 3) ∧
      line_polygon_intersections ((0.5 : ℝ), 2) ((0.5 : ℝ), 3) sqPoly = [(0.5, 0), (0.5, 1)] := by
  have h0 : line_intersection ((0.5 : ℝ), 2) ((0.5 : ℝ), 3) (sqPoly.getD 0 (0, 0))
      (sqPoly.getD ((0 + 1) % sqPoly.length) (0, 0)) = some (0.5, 0) := by
    show line_intersection ((0.5 : ℝ), 2) ((0.5 : ℝ), 3) (0, 0) (1, 0) = some (0.5, 0)
    rw [line_intersection, if_neg (by norm_num [denomOf]),
      if_pos (by constructor <;> norm_num [uParam, denomOf])]
    norm_num [tParam, denomOf]
  have h1 : line_intersection ((0.5 : ℝ), 2) ((0.5 : ℝ), 3) (sqPoly.getD 1 (0, 0))
      (sqPoly.getD ((1 + 1) % sqPoly.length) (0, 0)) = none := by
    show line_intersection ((0.5 : ℝ), 2) ((0.5 : ℝ), 3) (1, 0) (1, 1) = none
    rw [line_intersection, if_pos (by norm_num [denomOf])]
  have h2 : line_intersection ((0.5 : ℝ), 2) ((0.5 : ℝ), 3) (sqPoly.getD 2 (0, 0))
      (sqPoly.getD ((2 + 1) % sqPoly.length) (0, 0)) = some (0.5, 1) := by
    show line_intersection ((0.5 : ℝ), 2) ((0.5 : ℝ), 3) (1, 1) (0, 1) = some (0.5, 1)
    rw [line_intersection, if_neg (by norm_num [denomOf]),
      if_pos (by constructor <;> norm_num [uParam, denomOf])]
    norm_num [tParam, denomOf]
  have h3 : line_intersection ((0.5 : ℝ), 2) ((0.5 : ℝ), 3) (sqPoly.getD 3 (0, 0))
      (sqPoly.getD ((3 + 1) % sqPoly.length) (0, 0)) = none := by
    show line_intersection ((0.5 : ℝ), 2) ((0.5 : ℝ), 3) (0, 1) (0, 0) = none
    rw [line_intersection, if_pos (by norm_num [denomOf])]
  have hrange : List.range sqPoly.length = [0, 1, 2, 3] := by
    norm_num [sqPoly, List.range_succ]
  have hh : edge_hits ((0.5 : ℝ), 2) ((0.5 : ℝ), 3) sqPoly = [(0.5, 0), (0.5, 1)] := by
    rw [edge_hits, hrange, List.filterMap_cons, List.filterMap_cons, List.filterMap_cons,
      List.filterMap_cons, List.filterMap_nil, h0, h1, h2, h3]
  have hlon : maxLonOf sqPoly = 1 := by
    show max (max (max ((0, 0) : ℝ × ℝ).2 ((1, 0) : ℝ × ℝ).2) ((1, 1) : ℝ × ℝ).2)
      ((0, 1) : ℝ × ℝ).2 = 1
    norm_num
  refine ⟨fun hin => ?_, fun hin => ?_, ?_⟩
  · unfold inBounds at hin
    rw [hlon] at hin
    norm_num at hin
  · unfold inBounds at hin
    rw [hlon] at hin
    norm_num at hin
  · have d1 : dedup_step [] ((0.5 : ℝ), (0 : ℝ)) = [(0.5, 0)] := by
      rw [dedup_step, if_neg (by simp)]
      rfl
    have d2 : dedup_step [((0.5 : ℝ), (0 : ℝ))] ((0.5 : ℝ), (1 : ℝ)) = [(0.5, 0), (0.5, 1)] := by
      rw [dedup_step, if_neg (by norm_num)]
      rfl
    rw [line_polygon_intersections, hh, List.foldl_cons, List.foldl_cons, List.foldl_nil, d1, d2]

/-- C3 (witness): the unit square lies strictly on one side of the infinite
vertical line through `(5, 0)` and `(5, 1)`, and clipping returns no points. -/
theorem C3_witness :
    (∀ v ∈ sqPoly, 0 < sideSign ((5 : ℝ), 0) ((5 : ℝ), 1) v) ∧
      line_polygon_intersections ((5 : ℝ), 0) ((5 : ℝ), 1) sqPoly = [] := by
  have hside : ∀ v ∈ sqPoly, 0 < sideSign ((5 : ℝ), 0) ((5 : ℝ), 1) v := by
    intro v hv
    fin_cases hv <;> norm_num [sideSign]
  exact ⟨hside, C3_clip_empty_of_strict_side _ _ _ (Or.inl hside)⟩

/-! ### C1 — the inward buffer relative to the centroid -/

theorem create_buffer_getD {p : List (ℝ × ℝ)} {i : ℕ} (d : ℝ) (h3 : 3 ≤ p.length)
    (hi : i < p.length) :
    (create_buffer_polygon d p).getD i (0, 0) =
      buffer_move d (centroidOf p) (p.getD i (0, 0)) := by
  rw [create_buffer_polygon, if_neg (Nat.not_lt.mpr h3)]
  rw [List.getD_eq_getElem _ _ (by simpa using hi), List.getElem_map,
    List.getD_eq_getElem p (0, 0) hi]

/-- C1 (amended): for a buffer distance `d ≥ 0`, every vertex whose distance to
the arithmetic-mean centroid is at least `d` is moved toward and never past the
centroid (it lands at parameter `t = d/dist ∈ [0,1]` of the segment to the
centroid, strictly toward it when `d > 0`), and a vertex coinciding with the
centroid is unmoved.  Vertices at distance `0 < dist < d` are excluded: the
source moves them past the centroid. -/
theorem C1_buffer_never_past_centroid (p : List (ℝ × ℝ)) (d : ℝ) (i : ℕ)
    (h3 : 3 ≤ p.length) (hd : 0 ≤ d) (hi : i < p.length)
    (hfar : d ≤ toCentroidNorm p i) :
    (∃ t, 0 ≤ t ∧ t ≤ 1 ∧ (0 < d → 0 < t) ∧
      (create_buffer_polygon d p).getD i (0, 0) =
        ((p.getD i (0, 0)).1 + t * ((centroidOf p).1 - (p.getD i (0, 0)).1),
         (p.getD i (0, 0)).2 + t * ((centroidOf p).2 - (p.getD i (0, 0)).2))) ∧
    (toCentroidNorm p i = 0 →
      (create_buffer_polygon d p).getD i (0, 0) = p.getD i (0, 0)) := by
  have hbuf := create_buffer_getD (p := p) (i := i) d h3 hi
  have hDnn : 0 ≤ toCentroidNorm p i := by
    unfold toCentroidNorm vecNorm
    positivity
  rcases eq_or_lt_of_le hDnn with hD0 | hDpos
  · have hd0 : d = 0 := le_antisymm (hfar.trans (le_of_eq hD0.symm)) hd
    have hunm : (create_buffer_polygon d p).getD i (0, 0) = p.getD i (0, 0) := by
      rw [hbuf]
      simp only [buffer_move]
      rw [if_neg]
      exact fun hlt => absurd hD0.symm (ne_of_gt hlt)
    refine ⟨⟨0, le_refl 0, zero_le_one, fun hdp => absurd hd0 (ne_of_gt hdp), ?_⟩,
      fun _ => hunm⟩
    rw [hunm, Prod.mk.injEq]
    constructor <;> ring
  · have hDpos' : 0 < vecNorm ((centroidOf p).1 - (p.getD i (0, 0)).1)
        ((centroidOf p).2 - (p.getD i (0, 0)).2) := hDpos
    refine ⟨⟨d / toCentroidNorm p i, div_nonneg hd hDnn,
      (div_le_one hDpos).mpr hfar, fun hdp => div_pos hdp hDpos, ?_⟩,
      fun h0 => absurd h0 (ne_of_gt hDpos)⟩
    rw [hbuf]
    simp only [buffer_move]
    rw [if_pos hDpos']
    unfold toCentroidNorm
    rw [Prod.mk.injEq]
    constructor <;> ring

/-- C1 (counterexample): with buffer distance `1`, the first vertex of `c1Poly`
lies within distance `0.5 < 1` of the centroid, yet it is moved (to `(0.6, 0.8)`),
and it does not land on the segment from the vertex to the centroid — the buffer
moves it past the centroid, contradicting the claim. -/
theorem C1_counterexample :
    toCentroidNorm c1Poly 0 < 1 ∧
      (create_buffer_polygon 1 c1Poly).getD 0 (0, 0) ≠ c1Poly.getD 0 (0, 0) ∧
      ¬∃ t, 0 ≤ t ∧ t ≤ 1 ∧
        (create_buffer_polygon 1 c1Poly).getD 0 (0, 0) =
          ((c1Poly.getD 0 (0, 0)).1 + t * ((centroidOf c1Poly).1 - (c1Poly.getD 0 (0, 0)).1),
           (c1Poly.getD 0 (0, 0)).2 + t * ((centroidOf c1Poly).2 - (c1Poly.getD 0 (0, 0)).2)) := by
  have hc : centroidOf c1Poly = (0.3, 0.4) := by
    unfold centroidOf c1Poly
    norm_num
  have hnorm : vecNorm (0.3 : ℝ) (0.4 : ℝ) = 0.5 := by
    unfold vecNorm
    rw [show (0.3 : ℝ) ^ 2 + (0.4 : ℝ) ^ 2 = (0.5 : ℝ) ^ 2 by norm_num]
    exact Real.sqrt_sq (by norm_num)
  have hD : toCentroidNorm c1Poly 0 = 0.5 := by
    unfold toCentroidNorm
    rw [hc]
    show vecNorm ((0.3 : ℝ) - 0) ((0.4 : ℝ) - 0) = 0.5
    rw [show ((0.3 : ℝ) - 0) = (0.3 : ℝ) by ring, show ((0.4 : ℝ) - 0) = (0.4 : ℝ) by ring,
      hnorm]
  have hbuf : (create_buffer_polygon 1 c1Poly).getD 0 (0, 0) = ((0.6 : ℝ), (0.8 : ℝ)) := by
    rw [create_buffer_getD 1 (by norm_num [c1Poly]) (by norm_num [c1Poly])]
    rw [hc]
    show buffer_move 1 (0.3, 0.4) (0, 0) = ((0.6 : ℝ), (0.8 : ℝ))
    simp only [buffer_move]
    rw [show ((0.3 : ℝ), (0.4 : ℝ)).1 - ((0 : ℝ), (0 : ℝ)).1 = (0.3 : ℝ) by norm_num,
      show ((0.3 : ℝ), (0.4 : ℝ)).2 - ((0 : ℝ), (0 : ℝ)).2 = (0.4 : ℝ) by norm_num,
      hnorm, if_pos (by norm_num : (0 : ℝ) < 0.5)]
    norm_num
  refine ⟨by rw [hD]; norm_num, ?_, ?_⟩
  · rw [hbuf]
    show ((0.6 : ℝ), (0.8 : ℝ)) ≠ ((0 : ℝ), (0 : ℝ))
    intro h
    have := congrArg Prod.fst h
    norm_num at this
  · rintro ⟨t, ht0, ht1, heq⟩
    have hg : c1Poly.getD 0 (0, 0) = ((0 : ℝ), (0 : ℝ)) := rfl
    rw [hbuf, hc, hg] at heq
    have h1 := congrArg Prod.fst heq
    norm_num at h1
    linarith

/-- C1 (witness): the amended buffer theorem applied to the 2×2 square with
buffer distance 1 at vertex 0, whose centroid distance is `√2 ≥ 1`. -/
theorem C1_witness :
    (3 ≤ sq2Poly.length ∧ (0 : ℝ) ≤ 1 ∧ 0 < sq2Poly.length ∧
      (1 : ℝ) ≤ toCentroidNorm sq2Poly 0) ∧
    ((∃ t, 0 ≤ t ∧ t ≤ 1 ∧ ((0 : ℝ) < 1 → 0 < t) ∧
      (create_buffer_polygon 1 sq2Poly).getD 0 (0, 0) =
        ((sq2Poly.getD 0 (0, 0)).1 + t * ((centroidOf sq2Poly).1 - (sq2Poly.getD 0 (0, 0)).1),
         (sq2Poly.getD 0 (0, 0)).2 + t * ((centroidOf sq2Poly).2 - (sq2Poly.getD 0 (0, 0)).2))) ∧
     (toCentroidNorm sq2Poly 0 = 0 →
      (create_buffer_polygon 1 sq2Poly).getD 0 (0, 0) = sq2Poly.getD 0 (0, 0))) := by
  have hc : centroidOf sq2Poly = (1, 1) := by
    unfold centroidOf sq2Poly
    norm_num
  have hfar : (1 : ℝ) ≤ toCentroidNorm sq2Poly 0 := by
    unfold toCentroidNorm
    rw [hc]
    show (1 : ℝ) ≤ vecNorm ((1 : ℝ) - 0) ((1 : ℝ) - 0)
    unfold vecNorm
    rw [show ((1 : ℝ) - 0) ^ 2 + ((1 : ℝ) - 0) ^ 2 = 2 by norm_num]
    rw [show (1 : ℝ) = Real.sqrt 1 from (Real.sqrt_one).symm]
    exact Real.sqrt_le_sqrt (by norm_num)
  refine ⟨⟨by norm_num [sq2Poly], by norm_num, by norm_num [sq2Poly], hfar⟩, ?_⟩
  exact C1_buffer_never_past_centroid sq2Poly 1 0 (by norm_num [sq2Poly]) (by norm_num)
    (by norm_num [sq2Poly]) hfar

/-! ### C4 — the final whole-pattern home reversal -/

/-- The haversine distance between `(0,0)` and `(0,1)` is positive (used to
instantiate reversal conditions on concrete inputs). -/
theorem dist_01_pos : 0 < calculate_distance ((0 : ℝ), 0) ((0 : ℝ), 1) := by
  apply calculate_distance_pos_of_havTerm
  have hsin : 0 < Real.sin (Real.pi / 180 / 2) := by
    apply Real.sin_pos_of_pos_of_lt_pi
    · nlinarith [Real.pi_pos]
    · nlinarith [Real.pi_pos]
  unfold havTerm toRadians
  norm_num
  nlinarith [hsin, mul_pos hsin hsin]

/-- C4: the orderer reverses the whole built sequence exactly when
`distance(last, home) < distance(first, home) * 0.8`, returns it unchanged
otherwise, and never reverses when no home position is supplied. -/
theorem C4_home_reversal (lines : List ScanLine) (corners : Option CornersT) (h : ℝ × ℝ) :
    (calculate_distance ((built_waypoints lines corners (some h)).getLastD (0, 0)) h <
        calculate_distance ((built_waypoints lines corners (some h)).headD (0, 0)) h * 0.8 →
      optimize_line_ordering_for_corners lines corners (some h) =
        (built_waypoints lines corners (some h)).reverse) ∧
    (¬(calculate_distance ((built_waypoints lines corners (some h)).getLastD (0, 0)) h <
        calculate_distance ((built_waypoints lines corners (some h)).headD (0, 0)) h * 0.8) →
      optimize_line_ordering_for_corners lines corners (some h) =
        built_waypoints lines corners (some h)) ∧
    optimize_line_ordering_for_corners lines corners none =
      built_waypoints lines corners none := by
  refine ⟨?_, ?_, rfl⟩
  · intro hc
    show apply_home_reversal (some h) (built_waypoints lines corners (some h)) = _
    cases hww : built_waypoints lines corners (some h) with
    | nil => simp [apply_home_reversal]
    | cons w0 rest =>
      rw [hww] at hc
      rw [List.headD_cons] at hc
      simp only [apply_home_reversal]
      rw [if_pos hc]
  · intro hc
    show apply_home_reversal (some h) (built_waypoints lines corners (some h)) = _
    cases hww : built_waypoints lines corners (some h) with
    | nil => simp [apply_home_reversal]
    | cons w0 rest =>
      rw [hww] at hc
      rw [List.headD_cons] at hc
      simp only [apply_home_reversal]
      rw [if_neg hc]

/-- C4 (witness): with the single line `(0,0) → (0,1)` and home `(0,1)`, the
return leg from the last waypoint is `0 < 0.8 × distance(first, home)`, so the
pattern is reversed. -/
theorem C4_witness :
    (calculate_distance ((built_waypoints [c4Line] none (some ((0 : ℝ), 1))).getLastD (0, 0))
        ((0 : ℝ), 1) <
      calculate_distance ((built_waypoints [c4Line] none (some ((0 : ℝ), 1))).headD (0, 0))
        ((0 : ℝ), 1) * 0.8) ∧
    optimize_line_ordering_for_corners [c4Line] none (some ((0 : ℝ), 1)) =
      (built_waypoints [c4Line] none (some ((0 : ℝ), 1))).reverse := by
  have hcond : calculate_distance
      ((built_waypoints [c4Line] none (some ((0 : ℝ), 1))).getLastD (0, 0)) ((0 : ℝ), 1) <
      calculate_distance ((built_waypoints [c4Line] none (some ((0 : ℝ), 1))).headD (0, 0))
        ((0 : ℝ), 1) * 0.8 := by
    show calculate_distance ((0 : ℝ), (1 : ℝ)) ((0 : ℝ), 1) <
      calculate_distance ((0 : ℝ), (0 : ℝ)) ((0 : ℝ), 1) * 0.8
    rw [calculate_distance_self]
    nlinarith [dist_01_pos]
  exact ⟨hcond, (C4_home_reversal [c4Line] none ((0 : ℝ), 1)).1 hcond⟩

/-! ### C2 — ordering and orientation with no home position -/

/-- C2 (amended): with no home position the path orderer emits the lines in
stable ascending order of signed offset; the first line is emitted in
`(start, end)` orientation, and every subsequent line in the greedy orientation:
`(start, end)` only when its start point is strictly closer to the previously
emitted waypoint, else `(end, start)` — not in the default orientation on every
line. -/
theorem C2_no_home_ascending_greedy (lines : List ScanLine) (corners : Option CornersT) :
    List.Sorted (fun a b : ScanLine => a.offset ≤ b.offset) (sortLines lines) ∧
    (sortLines lines).Perm lines ∧
    path_order lines corners none =
      (match sortLines lines with
       | [] => []
       | l :: ls => l.startP :: l.endP :: greedy_build_rest l.endP ls) := by
  haveI : IsTotal ScanLine (fun a b : ScanLine => a.offset ≤ b.offset) :=
    ⟨fun a b => le_total a.offset b.offset⟩
  haveI : IsTrans ScanLine (fun a b : ScanLine => a.offset ≤ b.offset) :=
    ⟨fun _ _ _ hab hbc => le_trans hab hbc⟩
  refine ⟨List.sorted_insertionSort _ _, List.perm_insertionSort _ _, ?_⟩
  show optimize_line_ordering_for_corners (sortLines lines) corners none = _
  cases hs : sortLines lines with
  | nil =>
    simp [optimize_line_ordering_for_corners, built_waypoints, apply_home_reversal]
  | cons f rest =>
    simp [optimize_line_ordering_for_corners, built_waypoints, apply_home_reversal,
      plan_order, build_walk]

/-- C2 (counterexample): with no home position, the orderer does not emit every
line in `(start, end)` orientation — on this two-line input the second line is
emitted as `(end, start)`. -/
theorem C2_counterexample :
    path_order [c2L1, c2L2] none none ≠
      [c2L1.startP, c2L1.endP, c2L2.startP, c2L2.endP] := by
  have hs : sortLines [c2L1, c2L2] = [c2L1, c2L2] := by
    unfold sortLines
    rw [List.insertionSort, List.insertionSort, List.insertionSort, List.orderedInsert,
      List.orderedInsert]
    rw [if_pos]
    show c2L1.offset ≤ c2L2.offset
    norm_num [c2L1, c2L2]
  have hrest : greedy_build_rest c2L1.endP [c2L2] = [c2L2.endP, c2L2.startP] := by
    unfold greedy_build_rest
    rw [if_neg]
    · rfl
    · show ¬ calculate_distance c2L1.endP c2L2.startP <
        calculate_distance c2L1.endP c2L2.endP
      rw [show c2L2.endP = c2L1.endP from rfl, calculate_distance_self]
      exact not_lt.mpr (calculate_distance_nonneg _ _)
  have hw : path_order [c2L1, c2L2] none none =
      [c2L1.startP, c2L1.endP, c2L2.endP, c2L2.startP] := by
    show optimize_line_ordering_for_corners (sortLines [c2L1, c2L2]) none none = _
    rw [hs]
    show apply_home_reversal none (built_waypoints [c2L1, c2L2] none none) = _
    simp only [apply_home_reversal, built_waypoints, plan_order, build_walk,
      Bool.false_eq_true, if_false]
    rw [hrest]
  rw [hw]
  intro h
  have h2 := congrArg (fun l => (l.getD 2 ((0 : ℝ), (0 : ℝ))).1) h
  norm_num [c2L1, c2L2] at h2

/-! ### Sweep-loop lemmas (termination, fuel bound, collected offsets) -/

/-- The sweep collects exactly the successful probes of the offsets it visits. -/
theorem sweepAux_eq_sweptOffsets (mk : ℝ → Option ScanLine) (s M dir : ℝ) :
    ∀ (f : ℕ) (off : ℝ),
      sweepAux mk s M dir f off =
        (sweptOffsets s M dir f off).map (fun l => l.filterMap mk) := by
  intro f
  induction f with
  | zero =>
    intro off
    simp only [sweepAux, sweptOffsets]
    split_ifs <;> rfl
  | succ f ih =>
    intro off
    simp only [sweepAux, sweptOffsets]
    split_ifs with h1 h2
    · rfl
    · exact ih (off + s)
    · rw [ih (off + s)]
      cases sweptOffsets s M dir f (off + s) with
      | none => rfl
      | some l =>
        simp only [Option.map_some, Option.map_map, List.filterMap_cons]
        cases hmk : mk (off * dir) <;> simp [List.filterMap_cons, hmk]

/-- With positive spacing, fuel exceeding `(M - off)/s` completes the sweep. -/
theorem sweptOffsets_isSome {s M : ℝ} (hs : 0 < s) (dir : ℝ) :
    ∀ (f : ℕ) (off : ℝ), (M - off) / s < (f : ℝ) →
      (sweptOffsets s M dir f off).isSome := by
  intro f
  induction f with
  | zero =>
    intro off h
    have h0 : (M - off) / s < 0 := by exact_mod_cast h
    have h1 : M - off < 0 := by
      by_contra hge
      exact absurd h0 (not_lt.mpr (div_nonneg (not_lt.mp hge) hs.le))
    simp only [sweptOffsets]
    rw [if_pos (by linarith)]
    rfl
  | succ f ih =>
    intro off h
    have hstep : (M - (off + s)) / s < (f : ℝ) := by
      rw [div_lt_iff₀ hs] at h ⊢
      push_cast at h ⊢
      nlinarith
    simp only [sweptOffsets]
    split_ifs with h1 h2
    · rfl
    · exact ih (off + s) hstep
    · rw [show (Option.map (fun rest => off * dir :: rest)
          (sweptOffsets s M dir f (off + s))).isSome =
          (sweptOffsets s M dir f (off + s)).isSome by simp]
      exact ih (off + s) hstep

/-- With spacing `0` the loop guard never advances: no fuel completes the sweep
from offset `0` as soon as `0 ≤ M`. -/
theorem sweptOffsets_zero_spacing {M dir : ℝ} (hM : 0 ≤ M) :
    ∀ f : ℕ, sweptOffsets 0 M dir f 0 = none := by
  intro f
  induction f with
  | zero =>
    simp only [sweptOffsets]
    rw [if_neg (not_lt.mpr hM)]
  | succ f ih =>
    simp only [sweptOffsets]
    rw [if_neg (not_lt.mpr hM)]
    split_ifs with h2
    · rw [show (0 : ℝ) + 0 = 0 by ring, ih]
    · rw [show (0 : ℝ) + 0 = 0 by ring, ih]
      rfl

/-- The sweep radius of any run is nonnegative. -/
theorem sweepSetup_M_nonneg (cfg : Config) (p : List (ℝ × ℝ)) :
    0 ≤ (sweepSetup cfg p).M := by
  have hM : (sweepSetup cfg p).M =
      calculate_distance (minLatOf (sweepSetup cfg p).bp, minLonOf (sweepSetup cfg p).bp)
        (maxLatOf (sweepSetup cfg p).bp, maxLonOf (sweepSetup cfg p).bp) / 2 := rfl
  rw [hM]
  have := calculate_distance_nonneg
    (minLatOf (sweepSetup cfg p).bp, minLonOf (sweepSetup cfg p).bp)
    (maxLatOf (sweepSetup cfg p).bp, maxLonOf (sweepSetup cfg p).bp)
  linarith

/-- The configured fuel `⌊M/s⌋ + 1` strictly exceeds `M/s` when `s > 0, M ≥ 0`. -/
theorem sweepFuel_gt {s M : ℝ} (hs : 0 < s) (hM : 0 ≤ M) :
    M / s < (sweepFuel s M : ℝ) := by
  unfold sweepFuel
  have hMs : 0 ≤ M / s := div_nonneg hM hs.le
  have h0 : (0 : ℤ) ≤ ⌊M / s⌋ := Int.floor_nonneg.mpr hMs
  have hcast : ((⌊M / s⌋.toNat : ℕ) : ℝ) = ((⌊M / s⌋ : ℤ) : ℝ) := by
    exact_mod_cast congrArg (fun z : ℤ => (z : ℝ)) (Int.toNat_of_nonneg h0)
  push_cast
  rw [hcast]
  exact Int.lt_floor_add_one (M / s)

/-- With positive configured spacing, both directional sweeps of a run complete. -/
theorem sweep_complete {cfg : Config} (p : List (ℝ × ℝ)) (hs : 0 < cfg.spacing)
    (dir : ℝ) :
    (sweepAux (mkLineOf cfg p) (sweepSetup cfg p).s (sweepSetup cfg p).M dir
      (sweepFuel (sweepSetup cfg p).s (sweepSetup cfg p).M) 0).isSome := by
  have hspos : 0 < (sweepSetup cfg p).s := by
    show 0 < cfg.spacing * 111000
    nlinarith
  have hM := sweepSetup_M_nonneg cfg p
  rw [sweepAux_eq_sweptOffsets]
  rw [show ((sweptOffsets (sweepSetup cfg p).s (sweepSetup cfg p).M dir
      (sweepFuel (sweepSetup cfg p).s (sweepSetup cfg p).M) 0).map
      (fun l => l.filterMap (mkLineOf cfg p))).isSome =
      (sweptOffsets (sweepSetup cfg p).s (sweepSetup cfg p).M dir
      (sweepFuel (sweepSetup cfg p).s (sweepSetup cfg p).M) 0).isSome by simp]
  apply sweptOffsets_isSome hspos
  rw [sub_zero]
  exact sweepFuel_gt hspos hM

/-- With positive configured spacing, `allLinesOf` completes. -/
theorem allLinesOf_isSome {cfg : Config} (p : List (ℝ × ℝ)) (hs : 0 < cfg.spacing) :
    (allLinesOf cfg p).isSome := by
  have h1 := sweep_complete p hs (-1)
  have h2 := sweep_complete p hs 1
  obtain ⟨a, ha⟩ := Option.isSome_iff_exists.mp h1
  obtain ⟨b, hb⟩ := Option.isSome_iff_exists.mp h2
  simp only [allLinesOf]
  rw [ha, hb]
  rfl

/-- Retention test for a single probe, in the parameters of `mk_scan_line`: a
scan line is built exactly when the clipped intersection set of the pre-extended
probe has at least two points (the two `>= 2` checks of the source collapse). -/
theorem mk_scan_line_isSome_iff (cLat cLon perp brg : ℝ) (poly : List (ℝ × ℝ)) (off : ℝ) :
    (mk_scan_line cLat cLon perp brg poly off).isSome ↔
      2 ≤ (line_polygon_intersections
        (probe_ends (point_at_bearing_and_distance cLat cLon perp off).1
          (point_at_bearing_and_distance cLat cLon perp off).2 brg).1
        (probe_ends (point_at_bearing_and_distance cLat cLon perp off).1
          (point_at_bearing_and_distance cLat cLon perp off).2 brg).2 poly).length := by
  set op := point_at_bearing_and_distance cLat cLon perp off with hop
  set e := probe_ends op.1 op.2 brg with he
  set clip := line_polygon_intersections e.1 e.2 poly with hclip
  set R := fun a b : ℝ × ℝ => calculate_distance e.1 a ≤ calculate_distance e.1 b with hR
  have hpi : probe_inters_at cLat cLon perp brg poly off =
      if 2 ≤ clip.length then List.insertionSort R clip else [] := rfl
  simp only [mk_scan_line, hpi]
  by_cases hc : 2 ≤ clip.length
  · rw [if_pos hc]
    have hlen : (List.insertionSort R clip).length = clip.length :=
      (List.perm_insertionSort R clip).length_eq
    rw [if_pos (by rw [hlen]; exact hc)]
    simp [hc]
  · rw [if_neg hc, if_neg (by norm_num)]
    simp [hc]

/-- Shape of a retained line, in the parameters of `mk_scan_line`: the record
stores the probe offset and the clipped set re-sorted by haversine distance from
the probe's offset point (a permutation of the clipped set), and that re-sorted
list's first and last points — the nearest and farthest intersections from the
offset point — as `start_point` and `end_point`. -/
theorem mk_scan_line_some_shape (cLat cLon perp brg : ℝ) (poly : List (ℝ × ℝ)) (off : ℝ)
    (l : ScanLine) (h : mk_scan_line cLat cLon perp brg poly off = some l) :
    l.offset = off ∧ l.startP = l.inters.headD (0, 0) ∧ l.endP = l.inters.getLastD (0, 0) ∧
      l.inters.Perm (line_polygon_intersections
        (probe_ends (point_at_bearing_and_distance cLat cLon perp off).1
          (point_at_bearing_and_distance cLat cLon perp off).2 brg).1
        (probe_ends (point_at_bearing_and_distance cLat cLon perp off).1
          (point_at_bearing_and_distance cLat cLon perp off).2 brg).2 poly) ∧
      List.Sorted (fun a b : ℝ × ℝ =>
        calculate_distance (point_at_bearing_and_distance cLat cLon perp off) a ≤
          calculate_distance (point_at_bearing_and_distance cLat cLon perp off) b)
        l.inters := by
  set op := point_at_bearing_and_distance cLat cLon perp off with hop
  set e := probe_ends op.1 op.2 brg with he
  set clip := line_polygon_intersections e.1 e.2 poly with hclip
  set R := fun a b : ℝ × ℝ => calculate_distance e.1 a ≤ calculate_distance e.1 b with hR
  haveI : IsTotal (ℝ × ℝ) (fun a b : ℝ × ℝ =>
      calculate_distance op a ≤ calculate_distance op b) :=
    ⟨fun a b => le_total _ _⟩
  haveI : IsTrans (ℝ × ℝ) (fun a b : ℝ × ℝ =>
      calculate_distance op a ≤ calculate_distance op b) :=
    ⟨fun _ _ _ hab hbc => le_trans hab hbc⟩
  have hpi : probe_inters_at cLat cLon perp brg poly off =
      if 2 ≤ clip.length then List.insertionSort R clip else [] := rfl
  revert h
  simp only [mk_scan_line, hpi]
  by_cases hc : 2 ≤ clip.length
  · rw [if_pos hc]
    have hlen : (List.insertionSort R clip).length = clip.length :=
      (List.perm_insertionSort R clip).length_eq
    rw [if_pos (by rw [hlen]; exact hc)]
    intro h
    have hl := (Option.some_injective _ h).symm
    subst hl
    exact ⟨rfl, rfl, rfl,
      (List.perm_insertionSort _ _).trans (List.perm_insertionSort R clip),
      List.sorted_insertionSort _ _⟩
  · rw [if_neg hc, if_neg (by norm_num)]
    intro h
    exact absurd h (by simp)

/-- `mkLineOf` retention test, in run parameters. -/
theorem mkLineOf_isSome_iff (cfg : Config) (p : List (ℝ × ℝ)) (off : ℝ) :
    (mkLineOf cfg p off).isSome ↔ 2 ≤ (probe_clip_at cfg p off).length :=
  mk_scan_line_isSome_iff (sweepSetup cfg p).cLat (sweepSetup cfg p).cLon
    (sweepSetup cfg p).perp (sweepSetup cfg p).ls.brg (sweepSetup cfg p).bp off

/-- Every line a completed sweep collects comes from some probe offset. -/
theorem sweep_mem {mk : ℝ → Option ScanLine} {s M dir : ℝ} {f : ℕ} {off : ℝ}
    {L : List ScanLine} (h : sweepAux mk s M dir f off = some L) :
    ∀ l ∈ L, ∃ o, mk o = some l := by
  rw [sweepAux_eq_sweptOffsets] at h
  cases ho : sweptOffsets s M dir f off with
  | none => rw [ho] at h; exact absurd h (by simp)
  | some O =>
    rw [ho] at h
    have hfm : O.filterMap mk = L := by simpa using h
    intro l hl
    rw [← hfm] at hl
    obtain ⟨o, _, ho2⟩ := List.mem_filterMap.mp hl
    exact ⟨o, ho2⟩

/-- The greedy continuation contributes exactly two waypoints per line. -/
theorem greedy_build_rest_length (ls : List ScanLine) :
    ∀ prev, (greedy_build_rest prev ls).length = 2 * ls.length := by
  induction ls with
  | nil => intro prev; rfl
  | cons l t ih =>
    intro prev
    simp only [greedy_build_rest]
    split_ifs <;> simp only [List.length_cons, ih, List.length_cons] <;> ring

/-- The waypoint build contributes exactly two waypoints per line. -/
theorem build_walk_length (lines : List ScanLine) (sfe : Bool) :
    (build_walk lines sfe).length = 2 * lines.length := by
  cases lines with
  | nil => rfl
  | cons l t =>
    simp only [build_walk]
    split_ifs <;> simp only [List.length_cons, greedy_build_rest_length] <;> ring

/-- The planned traversal order is the input order or its reverse. -/
theorem plan_order_fst (lines : List ScanLine) (f lastL : ScanLine)
    (corners : Option CornersT) (home : Option (ℝ × ℝ)) :
    (plan_order lines f lastL corners home).1 = lines ∨
      (plan_order lines f lastL corners home).1 = lines.reverse := by
  unfold plan_order
  cases home with
  | none => cases corners <;> exact Or.inl rfl
  | some h =>
    cases corners with
    | none => exact Or.inl rfl
    | some cs =>
      simp only
      split_ifs <;> first | exact Or.inl rfl | exact Or.inr rfl

/-- The built sequence has exactly twice as many waypoints as lines. -/
theorem built_waypoints_length (lines : List ScanLine) (corners : Option CornersT)
    (home : Option (ℝ × ℝ)) :
    (built_waypoints lines corners home).length = 2 * lines.length := by
  cases lines with
  | nil => rfl
  | cons f rest =>
    simp only [built_waypoints]
    rcases plan_order_fst (f :: rest) f ((f :: rest).getLastD f) corners home with h | h
    · rw [build_walk_length, h]
    · rw [build_walk_length, h]
      simp

/-- The final reversal step never changes the number of waypoints. -/
theorem apply_home_reversal_length (home : Option (ℝ × ℝ)) (w : List (ℝ × ℝ)) :
    (apply_home_reversal home w).length = w.length := by
  cases home with
  | none => rfl
  | some h =>
    cases w with
    | nil => rfl
    | cons w0 rest =>
      simp only [apply_home_reversal]
      split_ifs <;> simp

/-- The orderer emits exactly `2 × (number of lines)` waypoints. -/
theorem optimize_length (lines : List ScanLine) (corners : Option CornersT)
    (home : Option (ℝ × ℝ)) :
    (optimize_line_ordering_for_corners lines corners home).length = 2 * lines.length := by
  unfold optimize_line_ordering_for_corners
  rw [apply_home_reversal_length, built_waypoints_length]

/-! ### C10 — termination and iteration bound of the outward sweep -/

/-- C10: with `spacingMeters > 0` the outward sweep terminates — fuel
`⌊maxExtend/spacing⌋ + 1` loop iterations suffice per direction, which is at
most `2·(maxExtend/spacing) + 2` iterations per run — and the pipeline returns
a result; the code never validates spacing, and with spacing `0` the offset
never advances, so no amount of fuel completes the loop and the pipeline
diverges (`none`). -/
theorem C10_sweep_termination (cfg : Config) (p : List (ℝ × ℝ)) (hs : 0 < cfg.spacing) :
    (generate_parallel_lines_to_longest_side cfg p).isSome ∧
    (∀ dir : ℝ, (sweepAux (mkLineOf cfg p) (sweepSetup cfg p).s (sweepSetup cfg p).M dir
      (sweepFuel (sweepSetup cfg p).s (sweepSetup cfg p).M) 0).isSome) ∧
    2 * ((sweepFuel (sweepSetup cfg p).s (sweepSetup cfg p).M : ℕ) : ℝ) ≤
      2 * ((sweepSetup cfg p).M / (sweepSetup cfg p).s) + 2 ∧
    (∀ (cfg' : Config) (p' : List (ℝ × ℝ)), cfg'.spacing = 0 → 3 ≤ p'.length →
      generate_parallel_lines_to_longest_side cfg' p' = none) := by
  have hspos : 0 < (sweepSetup cfg p).s := by
    show 0 < cfg.spacing * 111000
    nlinarith
  have hM := sweepSetup_M_nonneg cfg p
  refine ⟨?_, fun dir => sweep_complete p hs dir, ?_, ?_⟩
  · by_cases h3 : p.length < 3
    · simp [generate_parallel_lines_to_longest_side, h3]
    · obtain ⟨L, hL⟩ := Option.isSome_iff_exists.mp (allLinesOf_isSome p hs)
      simp [generate_parallel_lines_to_longest_side, h3, hL]
  · unfold sweepFuel
    have hMs : 0 ≤ (sweepSetup cfg p).M / (sweepSetup cfg p).s := div_nonneg hM hspos.le
    have h0 : (0 : ℤ) ≤ ⌊(sweepSetup cfg p).M / (sweepSetup cfg p).s⌋ :=
      Int.floor_nonneg.mpr hMs
    have hcast : ((⌊(sweepSetup cfg p).M / (sweepSetup cfg p).s⌋.toNat : ℕ) : ℝ) =
        ((⌊(sweepSetup cfg p).M / (sweepSetup cfg p).s⌋ : ℤ) : ℝ) := by
      exact_mod_cast congrArg (fun z : ℤ => (z : ℝ)) (Int.toNat_of_nonneg h0)
    have hfl := Int.floor_le ((sweepSetup cfg p).M / (sweepSetup cfg p).s)
    push_cast
    rw [hcast]
    linarith
  · intro cfg' p' hz h3
    have hs0 : (sweepSetup cfg' p').s = 0 := by
      show cfg'.spacing * 111000 = 0
      rw [hz]; ring
    have hM' := sweepSetup_M_nonneg cfg' p'
    have hnone : ∀ dir : ℝ, sweepAux (mkLineOf cfg' p') (sweepSetup cfg' p').s
        (sweepSetup cfg' p').M dir
        (sweepFuel (sweepSetup cfg' p').s (sweepSetup cfg' p').M) 0 = none := by
      intro dir
      rw [sweepAux_eq_sweptOffsets, hs0, sweptOffsets_zero_spacing hM']
      rfl
    have hall : allLinesOf cfg' p' = none := by
      simp only [allLinesOf]
      rw [hnone (-1), hnone 1]
    simp [generate_parallel_lines_to_longest_side, Nat.not_lt.mpr h3, hall]

/-- C10 (witness): the termination theorem applied to a concrete run. -/
theorem C10_witness :
    (0 : ℝ) < cfgW.spacing ∧
    ((generate_parallel_lines_to_longest_side cfgW pW).isSome ∧
     (∀ dir : ℝ, (sweepAux (mkLineOf cfgW pW) (sweepSetup cfgW pW).s (sweepSetup cfgW pW).M dir
       (sweepFuel (sweepSetup cfgW pW).s (sweepSetup cfgW pW).M) 0).isSome) ∧
     2 * ((sweepFuel (sweepSetup cfgW pW).s (sweepSetup cfgW pW).M : ℕ) : ℝ) ≤
       2 * ((sweepSetup cfgW pW).M / (sweepSetup cfgW pW).s) + 2 ∧
     (∀ (cfg' : Config) (p' : List (ℝ × ℝ)), cfg'.spacing = 0 → 3 ≤ p'.length →
       generate_parallel_lines_to_longest_side cfg' p' = none)) :=
  ⟨by norm_num [cfgW], C10_sweep_termination cfgW pW (by norm_num [cfgW])⟩

/-! ### C9 — degenerate inputs yield an empty flight path -/

/-- Clipping any probe against the degenerate polygon `pW` yields nothing:
every edge has coincident endpoints, so every denominator vanishes. -/
theorem clip_pW (a b : ℝ × ℝ) : line_polygon_intersections a b pW = [] := by
  have hedge : ∀ i : ℕ, line_intersection a b (pW.getD i (0, 0))
      (pW.getD ((i + 1) % pW.length) (0, 0)) = none := by
    intro i
    have hget : ∀ j : ℕ, pW.getD j (0, 0) = ((0 : ℝ), (0 : ℝ)) := by
      intro j
      match j with
      | 0 => rfl
      | 1 => rfl
      | 2 => rfl
      | (n + 3) => rfl
    rw [hget i, hget ((i + 1) % pW.length)]
    rw [line_intersection, if_pos]
    show |denomOf a b ((0 : ℝ), (0 : ℝ)) ((0 : ℝ), (0 : ℝ))| < 1e-10
    unfold denomOf
    norm_num
  have hh : edge_hits a b pW = [] := by
    unfold edge_hits
    rw [List.filterMap_eq_nil_iff]
    intro i hi
    exact hedge i
  unfold line_polygon_intersections
  rw [hh]
  rfl

/-- The buffered polygon of the witness run is `pW` itself. -/
theorem bp_pW : create_buffer_polygon cfgW.buffer_distance pW = pW := by
  have hc : centroidOf pW = (0, 0) := by
    unfold centroidOf pW
    norm_num
  have hvn : ¬ (0 : ℝ) < vecNorm 0 0 := by
    unfold vecNorm
    rw [show (0 : ℝ) ^ 2 + (0 : ℝ) ^ 2 = 0 by norm_num, Real.sqrt_zero]
    exact lt_irrefl 0
  have hbm : buffer_move cfgW.buffer_distance ((0 : ℝ), (0 : ℝ)) ((0 : ℝ), (0 : ℝ)) =
      ((0 : ℝ), (0 : ℝ)) := by
    simp only [buffer_move, sub_self]
    rw [if_neg hvn]
  rw [create_buffer_polygon, if_neg (by norm_num [pW])]
  rw [hc]
  show List.map (buffer_move cfgW.buffer_distance (0, 0)) pW = pW
  unfold pW
  rw [List.map_cons, List.map_cons, List.map_cons, List.map_nil, hbm]

/-- No probe of the witness run yields any intersections. -/
theorem probe_clip_pW (off : ℝ) : probe_clip_at cfgW pW off = [] := by
  show line_polygon_intersections _ _ (sweepSetup cfgW pW).bp = []
  rw [show (sweepSetup cfgW pW).bp = create_buffer_polygon cfgW.buffer_distance pW from rfl,
    bp_pW]
  exact clip_pW _ _

/-- C9: degenerate inputs never produce partial output — a polygon with fewer
than 3 vertices yields the empty flight path, and a terminating run in which no
probe yields two or more intersections also yields the empty flight path. -/
theorem C9_degenerate_empty (cfg : Config) (p : List (ℝ × ℝ)) :
    (p.length < 3 → generate_parallel_lines_to_longest_side cfg p = some []) ∧
    (0 < cfg.spacing → (∀ off : ℝ, (probe_clip_at cfg p off).length < 2) →
      generate_parallel_lines_to_longest_side cfg p = some []) := by
  constructor
  · intro h3
    simp [generate_parallel_lines_to_longest_side, h3]
  · intro hs hclip
    by_cases h3 : p.length < 3
    · simp [generate_parallel_lines_to_longest_side, h3]
    · have hmk : ∀ off : ℝ, mkLineOf cfg p off = none := by
        intro off
        cases hmo : mkLineOf cfg p off with
        | none => rfl
        | some l =>
          have hts : (mkLineOf cfg p off).isSome := by rw [hmo]; rfl
          have := (mkLineOf_isSome_iff cfg p off).mp hts
          exact absurd this (not_le.mpr (hclip off))
      have hsw : ∀ dir : ℝ, sweepAux (mkLineOf cfg p) (sweepSetup cfg p).s
          (sweepSetup cfg p).M dir
          (sweepFuel (sweepSetup cfg p).s (sweepSetup cfg p).M) 0 = some [] := by
        intro dir
        obtain ⟨L, hL⟩ := Option.isSome_iff_exists.mp (sweep_complete p hs dir)
        have hem : L = [] := by
          rw [sweepAux_eq_sweptOffsets] at hL
          cases ho : sweptOffsets (sweepSetup cfg p).s (sweepSetup cfg p).M dir
              (sweepFuel (sweepSetup cfg p).s (sweepSetup cfg p).M) 0 with
          | none => rw [ho] at hL; exact absurd hL (by simp)
          | some O =>
            rw [ho] at hL
            have hfm : O.filterMap (mkLineOf cfg p) = L := by simpa using hL
            rw [← hfm, List.filterMap_eq_nil_iff]
            intro o _
            exact hmk o
        rw [hL, hem]
      have hall : allLinesOf cfg p = some [] := by
        simp only [allLinesOf]
        rw [hsw (-1), hsw 1]
        rfl
      have hopt : optimize_line_ordering_for_corners []
          (find_polygon_corners (create_buffer_polygon cfg.buffer_distance p))
          cfg.home_position = [] := by
        show apply_home_reversal cfg.home_position [] = []
        cases cfg.home_position <;> rfl
      simp [generate_parallel_lines_to_longest_side, h3, hall, hopt]

/-- C9 (witness): a 1-vertex polygon yields `some []`, and the degenerate run
`cfgW`/`pW` — where every probe yields no intersections — also yields `some []`. -/
theorem C9_witness :
    (([((0 : ℝ), (0 : ℝ))] : List (ℝ × ℝ)).length < 3 ∧
      generate_parallel_lines_to_longest_side cfgW [((0 : ℝ), (0 : ℝ))] = some []) ∧
    (0 < cfgW.spacing ∧ (∀ off : ℝ, (probe_clip_at cfgW pW off).length < 2) ∧
      generate_parallel_lines_to_longest_side cfgW pW = some []) := by
  have hclip : ∀ off : ℝ, (probe_clip_at cfgW pW off).length < 2 := by
    intro off
    rw [probe_clip_pW]
    norm_num
  exact ⟨⟨by norm_num, (C9_degenerate_empty cfgW _).1 (by norm_num)⟩,
    ⟨by norm_num [cfgW], hclip,
      (C9_degenerate_empty cfgW pW).2 (by norm_num [cfgW]) hclip⟩⟩

/-! ### C7 — retention test and two-waypoints-per-line structure -/

theorem greedy_build_rest_blocks (ls : List ScanLine) :
    ∀ prev, ∃ ds : List Bool, ds.length = ls.length ∧
      greedy_build_rest prev ls = (List.zipWith emitBlock ds ls).flatten := by
  induction ls with
  | nil => intro prev; exact ⟨[], rfl, rfl⟩
  | cons l t ih =>
    intro prev
    simp only [greedy_build_rest]
    split_ifs with hcond
    · obtain ⟨ds, hlen, heq⟩ := ih l.endP
      exact ⟨false :: ds, by simp [hlen], by simp [emitBlock, heq]⟩
    · obtain ⟨ds, hlen, heq⟩ := ih l.startP
      exact ⟨true :: ds, by simp [hlen], by simp [emitBlock, heq]⟩

theorem build_walk_blocks (lines : List ScanLine) (sfe : Bool) :
    ∃ ds : List Bool, ds.length = lines.length ∧
      build_walk lines sfe = (List.zipWith emitBlock ds lines).flatten := by
  cases lines with
  | nil => exact ⟨[], rfl, rfl⟩
  | cons l t =>
    simp only [build_walk]
    split_ifs with hsfe
    · obtain ⟨ds, hlen, heq⟩ := greedy_build_rest_blocks t l.startP
      exact ⟨true :: ds, by simp [hlen], by simp [emitBlock, heq]⟩
    · obtain ⟨ds, hlen, heq⟩ := greedy_build_rest_blocks t l.endP
      exact ⟨false :: ds, by simp [hlen], by simp [emitBlock, heq]⟩

/-- Reversing a block-structured path flips the order of the blocks and the
orientation inside each block. -/
theorem blocks_reverse (ds : List Bool) :
    ∀ ord : List ScanLine, ds.length = ord.length →
      ((List.zipWith emitBlock ds ord).flatten).reverse =
        (List.zipWith emitBlock (ds.reverse.map (fun b => !b)) ord.reverse).flatten := by
  induction ds with
  | nil => intro ord h; simp
  | cons d dt ih =>
    intro ord h
    cases ord with
    | nil => simp at h
    | cons l lt =>
      have hl : dt.length = lt.length := by simpa using h
      have hlen2 : (dt.reverse.map (fun b => !b)).length = lt.reverse.length := by
        simp [hl]
      simp only [List.zipWith_cons_cons, List.flatten_cons, List.reverse_append,
        List.reverse_cons, List.map_append]
      rw [List.zipWith_append _ _ _ _ _ hlen2, List.flatten_append, ih lt hl]
      cases d <;> simp [emitBlock]

/-- The orderer's output is a concatenation of two-waypoint blocks, one per
line, over a permutation of the input lines. -/
theorem optimize_blocks (lines : List ScanLine) (corners : Option CornersT)
    (home : Option (ℝ × ℝ)) :
    ∃ (ord : List ScanLine) (ds : List Bool), ord.Perm lines ∧ ds.length = ord.length ∧
      optimize_line_ordering_for_corners lines corners home =
        (List.zipWith emitBlock ds ord).flatten := by
  have hb : ∃ (ord : List ScanLine) (ds : List Bool), ord.Perm lines ∧
      ds.length = ord.length ∧
      built_waypoints lines corners home = (List.zipWith emitBlock ds ord).flatten := by
    cases lines with
    | nil => exact ⟨[], [], List.Perm.refl _, rfl, rfl⟩
    | cons f rest =>
      obtain ⟨ds, hlen, heq⟩ := build_walk_blocks
        (plan_order (f :: rest) f ((f :: rest).getLastD f) corners home).1
        (plan_order (f :: rest) f ((f :: rest).getLastD f) corners home).2
      refine ⟨(plan_order (f :: rest) f ((f :: rest).getLastD f) corners home).1, ds,
        ?_, hlen, heq⟩
      rcases plan_order_fst (f :: rest) f ((f :: rest).getLastD f) corners home with h | h
      · rw [h]
      · rw [h]
        exact List.reverse_perm _
  obtain ⟨ord, ds, hperm, hlen, heq⟩ := hb
  unfold optimize_line_ordering_for_corners
  cases home with
  | none => exact ⟨ord, ds, hperm, hlen, heq⟩
  | some h =>
    cases hw : built_waypoints lines corners (some h) with
    | nil =>
      rw [hw] at heq
      exact ⟨ord, ds, hperm, hlen, heq⟩
    | cons w0 rest =>
      rw [hw] at heq
      simp only [apply_home_reversal]
      split_ifs with hc
      · refine ⟨ord.reverse, ds.reverse.map (fun b => !b), (List.reverse_perm _).trans hperm,
          by simp [hlen], ?_⟩
        rw [← blocks_reverse ds ord hlen, ← heq]
      · exact ⟨ord, ds, hperm, hlen, heq⟩


theorem betaC7_gt : (0.017 : ℝ) < betaC7 := by
  unfold betaC7 toDegrees
  rw [lt_div_iff₀ Real.pi_pos]
  nlinarith [Real.pi_lt_d2]

theorem betaC7_lt : betaC7 < (0.018 : ℝ) := by
  unfold betaC7 toDegrees
  rw [div_lt_iff₀ Real.pi_pos]
  nlinarith [Real.pi_gt_d2]

theorem c7_op : point_at_bearing_and_distance 0 0 0 0 = ((0 : ℝ), (0 : ℝ)) := by
  have h0 : toRadians 0 = 0 := by unfold toRadians; ring
  simp only [point_at_bearing_and_distance, h0, Real.sin_zero, Real.cos_zero, zero_mul,
    mul_one, one_mul, zero_add, add_zero, mul_zero, sub_zero, zero_div]
  rw [Real.arcsin_zero, atan2_zero_right one_pos]
  unfold toDegrees
  norm_num

theorem c7_e1 : point_at_bearing_and_distance 0 0 0 2000 = (betaC7, 0) := by
  have h0 : toRadians 0 = 0 := by unfold toRadians; ring
  have hq1 : -(Real.pi / 2) ≤ ((2000 : ℝ) / 6371000) := by nlinarith [Real.pi_gt_three]
  have hq2 : ((2000 : ℝ) / 6371000) ≤ Real.pi / 2 := by nlinarith [Real.pi_gt_three]
  have hcos : 0 < Real.cos ((2000 : ℝ) / 6371000) :=
    Real.cos_pos_of_mem_Ioo ⟨by nlinarith [Real.pi_gt_three], by nlinarith [Real.pi_gt_three]⟩
  simp only [point_at_bearing_and_distance, h0, Real.sin_zero, Real.cos_zero, zero_mul,
    mul_one, one_mul, zero_add, add_zero, mul_zero, sub_zero]
  rw [Real.arcsin_sin hq1 hq2, atan2_zero_right hcos]
  unfold betaC7 toDegrees
  norm_num

theorem c7_pymod : pymod ((0 : ℝ) + 180) 360 = 180 := by
  unfold pymod
  norm_num

theorem c7_e2 : point_at_bearing_and_distance 0 0 (pymod ((0 : ℝ) + 180) 360) 2000 =
    (-betaC7, 0) := by
  rw [c7_pymod]
  have h0 : toRadians 0 = 0 := by unfold toRadians; ring
  have h180 : toRadians 180 = Real.pi := by unfold toRadians; ring
  have hq1 : -(Real.pi / 2) ≤ ((2000 : ℝ) / 6371000) := by nlinarith [Real.pi_gt_three]
  have hq2 : ((2000 : ℝ) / 6371000) ≤ Real.pi / 2 := by nlinarith [Real.pi_gt_three]
  have hcos : 0 < Real.cos ((2000 : ℝ) / 6371000) :=
    Real.cos_pos_of_mem_Ioo ⟨by nlinarith [Real.pi_gt_three], by nlinarith [Real.pi_gt_three]⟩
  simp only [point_at_bearing_and_distance, h0, h180, Real.sin_zero, Real.cos_zero,
    Real.sin_pi, Real.cos_pi, zero_mul, mul_one, one_mul, zero_add, add_zero, mul_zero,
    sub_zero, mul_neg_one]
  rw [Real.arcsin_neg, Real.arcsin_sin hq1 hq2, atan2_zero_right hcos]
  unfold betaC7 toDegrees
  rw [Prod.mk.injEq]
  exact ⟨by ring, by norm_num⟩

theorem c7_probe : probe_ends 0 0 0 = ((betaC7, 0), (-betaC7, 0)) := by
  unfold probe_ends
  rw [c7_e1, c7_e2]

theorem havTerm_meridian (x y : ℝ) :
    havTerm (x, 0) (y, 0) = Real.sin (toRadians (y - x) / 2) ^ 2 := by
  have hz : toRadians ((0 : ℝ) - 0) = 0 := by unfold toRadians; ring
  show Real.sin (toRadians (y - x) / 2) ^ 2 +
      Real.cos (toRadians x) * Real.cos (toRadians y) *
        Real.sin (toRadians ((0 : ℝ) - 0) / 2) ^ 2 = _
  rw [hz]
  norm_num

theorem dist_meridian (x y : ℝ) (h : |y - x| < 180) :
    calculate_distance (x, 0) (y, 0) = 6371000 * (2 * |toRadians (y - x) / 2|) := by
  have hπ := Real.pi_pos
  set θ := toRadians (y - x) / 2 with hθ
  have hθabs : |θ| = |y - x| * (Real.pi / 360) := by
    rw [hθ, show toRadians (y - x) / 2 = (y - x) * (Real.pi / 360) by unfold toRadians; ring,
      abs_mul, abs_of_pos (by positivity : (0 : ℝ) < Real.pi / 360)]
  have hθlt : |θ| < Real.pi / 2 := by
    rw [hθabs]
    calc |y - x| * (Real.pi / 360) < 180 * (Real.pi / 360) :=
          mul_lt_mul_of_pos_right h (by positivity)
      _ = Real.pi / 2 := by ring
  obtain ⟨hθl, hθr⟩ := abs_lt.mp hθlt
  have hcosθ : 0 < Real.cos θ := Real.cos_pos_of_mem_Ioo ⟨hθl, hθr⟩
  have hhav : havTerm (x, 0) (y, 0) = Real.sin θ ^ 2 := havTerm_meridian x y
  rw [calculate_distance_def, hhav]
  have h2 : (1 : ℝ) - Real.sin θ ^ 2 = Real.cos θ ^ 2 := by
    have := Real.sin_sq_add_cos_sq θ; linarith
  rw [h2, Real.sqrt_sq_eq_abs, Real.sqrt_sq_eq_abs, abs_of_pos hcosθ]
  have h3 : |Real.sin θ| / Real.cos θ = Real.tan |θ| := by
    rcases le_or_lt 0 θ with hs | hs
    · rw [abs_of_nonneg hs, abs_of_nonneg (Real.sin_nonneg_of_nonneg_of_le_pi hs
        (by linarith)), Real.tan_eq_sin_div_cos]
    · rw [abs_of_neg hs, abs_of_neg (Real.sin_neg_of_neg_of_neg_pi_lt hs (by linarith)),
        Real.tan_eq_sin_div_cos, Real.sin_neg, Real.cos_neg]
  unfold atan2
  rw [if_pos hcosθ, h3,
    Real.arctan_tan (lt_of_lt_of_le (by linarith) (abs_nonneg θ)) hθlt]

theorem dist_meridian_le_iff (xo xa xb : ℝ) (ha : |xa - xo| < 180) (hb : |xb - xo| < 180) :
    (calculate_distance (xo, 0) (xa, 0) ≤ calculate_distance (xo, 0) (xb, 0)) ↔
      |xa - xo| ≤ |xb - xo| := by
  rw [dist_meridian xo xa ha, dist_meridian xo xb hb]
  have e1 : |toRadians (xa - xo) / 2| = |xa - xo| * (Real.pi / 360) := by
    rw [show toRadians (xa - xo) / 2 = (xa - xo) * (Real.pi / 360) by unfold toRadians; ring,
      abs_mul, abs_of_pos (by positivity : (0 : ℝ) < Real.pi / 360)]
  have e2 : |toRadians (xb - xo) / 2| = |xb - xo| * (Real.pi / 360) := by
    rw [show toRadians (xb - xo) / 2 = (xb - xo) * (Real.pi / 360) by unfold toRadians; ring,
      abs_mul, abs_of_pos (by positivity : (0 : ℝ) < Real.pi / 360)]
  rw [e1, e2, mul_le_mul_left (by norm_num : (0 : ℝ) < 6371000),
    mul_le_mul_left (by norm_num : (0 : ℝ) < 2),
    mul_le_mul_right (by positivity : (0 : ℝ) < Real.pi / 360)]

theorem c7_cmp {xo xa xb : ℝ} (ha : |xa - xo| < 180) (hb : |xb - xo| < 180)
    (h : |xa - xo| ≤ |xb - xo|) :
    calculate_distance (xo, 0) (xa, 0) ≤ calculate_distance (xo, 0) (xb, 0) :=
  (dist_meridian_le_iff xo xa xb ha hb).mpr h

theorem c7_cmp_not {xo xa xb : ℝ} (ha : |xa - xo| < 180) (hb : |xb - xo| < 180)
    (h : |xb - xo| < |xa - xo|) :
    ¬ calculate_distance (xo, 0) (xa, 0) ≤ calculate_distance (xo, 0) (xb, 0) := by
  rw [dist_meridian_le_iff xo xa xb ha hb]
  exact not_le.mpr h

theorem c7_hit0 :
    line_intersection (betaC7, 0) (-betaC7, 0) ((1 : ℝ), (-1 : ℝ)) ((1 : ℝ), (1 : ℝ)) =
      some ((1 : ℝ), (0 : ℝ)) := by
  have hb1 := betaC7_gt
  have hb2 := betaC7_lt
  have hbne : betaC7 ≠ 0 := ne_of_gt (by linarith)
  have hd : denomOf (betaC7, 0) (-betaC7, 0) (1, -1) (1, 1) = -(4 * betaC7) := by
    unfold denomOf; dsimp only; ring
  have hu : uParam (betaC7, 0) (-betaC7, 0) (1, -1) (1, 1) = 1 / 2 := by
    unfold uParam; rw [hd]; dsimp only
    rw [div_eq_div_iff (ne_of_lt (by linarith : -(4 * betaC7) < 0)) two_ne_zero]
    ring
  have ht : tParam (betaC7, 0) (-betaC7, 0) (1, -1) (1, 1) = (betaC7 - 1) / (2 * betaC7) := by
    unfold tParam; rw [hd]; dsimp only
    rw [div_eq_div_iff (ne_of_lt (by linarith : -(4 * betaC7) < 0))
      (mul_ne_zero two_ne_zero hbne)]
    ring
  rw [line_intersection,
    if_neg (by
      rw [hd, abs_neg, abs_of_pos (by linarith : (0 : ℝ) < 4 * betaC7), not_lt]
      linarith),
    if_pos ⟨by rw [hu]; norm_num, by rw [hu]; norm_num⟩, ht]
  congr 1
  rw [Prod.mk.injEq]
  constructor
  · dsimp only
    field_simp
    ring
  · dsimp only
    ring

theorem c7_hit1 :
    line_intersection (betaC7, 0) (-betaC7, 0) ((1 : ℝ), (1 : ℝ)) ((5 : ℝ), (1 : ℝ)) =
      none := by
  have hd : denomOf (betaC7, 0) (-betaC7, 0) (1, 1) (5, 1) = 0 := by
    unfold denomOf; dsimp only; ring
  rw [line_intersection, if_pos (by rw [hd]; norm_num)]

theorem c7_hit2 :
    line_intersection (betaC7, 0) (-betaC7, 0) ((5 : ℝ), (1 : ℝ)) ((5 : ℝ), (-1 : ℝ)) =
      some ((5 : ℝ), (0 : ℝ)) := by
  have hb1 := betaC7_gt
  have hb2 := betaC7_lt
  have hbne : betaC7 ≠ 0 := ne_of_gt (by linarith)
  have hd : denomOf (betaC7, 0) (-betaC7, 0) (5, 1) (5, -1) = 4 * betaC7 := by
    unfold denomOf; dsimp only; ring
  have hu : uParam (betaC7, 0) (-betaC7, 0) (5, 1) (5, -1) = 1 / 2 := by
    unfold uParam; rw [hd]; dsimp only
    rw [div_eq_div_iff (ne_of_gt (by linarith : (0 : ℝ) < 4 * betaC7)) two_ne_zero]
    ring
  have ht : tParam (betaC7, 0) (-betaC7, 0) (5, 1) (5, -1) = (betaC7 - 5) / (2 * betaC7) := by
    unfold tParam; rw [hd]; dsimp only
    rw [div_eq_div_iff (ne_of_gt (by linarith : (0 : ℝ) < 4 * betaC7))
      (mul_ne_zero two_ne_zero hbne)]
    ring
  rw [line_intersection,
    if_neg (by
      rw [hd, abs_of_pos (by linarith : (0 : ℝ) < 4 * betaC7), not_lt]
      linarith),
    if_pos ⟨by rw [hu]; norm_num, by rw [hu]; norm_num⟩, ht]
  congr 1
  rw [Prod.mk.injEq]
  constructor
  · dsimp only
    field_simp
    ring
  · dsimp only
    ring

theorem c7_hit3 :
    line_intersection (betaC7, 0) (-betaC7, 0) ((5 : ℝ), (-1 : ℝ)) (betaC7 - 5, -1) =
      none := by
  have hd : denomOf (betaC7, 0) (-betaC7, 0) (5, -1) (betaC7 - 5, -1) = 0 := by
    unfold denomOf; dsimp only; ring
  rw [line_intersection, if_pos (by rw [hd]; norm_num)]

theorem c7_hit4 :
    line_intersection (betaC7, 0) (-betaC7, 0) (betaC7 - 5, -1) (betaC7 - 5, 1) =
      some (betaC7 - 5, 0) := by
  have hb1 := betaC7_gt
  have hb2 := betaC7_lt
  have hbne : betaC7 ≠ 0 := ne_of_gt (by linarith)
  have hd : denomOf (betaC7, 0) (-betaC7, 0) (betaC7 - 5, -1) (betaC7 - 5, 1) =
      -(4 * betaC7) := by
    unfold denomOf; dsimp only; ring
  have hu : uParam (betaC7, 0) (-betaC7, 0) (betaC7 - 5, -1) (betaC7 - 5, 1) = 1 / 2 := by
    unfold uParam; rw [hd]; dsimp only
    rw [div_eq_div_iff (ne_of_lt (by linarith : -(4 * betaC7) < 0)) two_ne_zero]
    ring
  have ht : tParam (betaC7, 0) (-betaC7, 0) (betaC7 - 5, -1) (betaC7 - 5, 1) =
      5 / (2 * betaC7) := by
    unfold tParam; rw [hd]; dsimp only
    rw [div_eq_div_iff (ne_of_lt (by linarith : -(4 * betaC7) < 0))
      (mul_ne_zero two_ne_zero hbne)]
    ring
  rw [line_intersection,
    if_neg (by
      rw [hd, abs_neg, abs_of_pos (by linarith : (0 : ℝ) < 4 * betaC7), not_lt]
      linarith),
    if_pos ⟨by rw [hu]; norm_num, by rw [hu]; norm_num⟩, ht]
  congr 1
  rw [Prod.mk.injEq]
  constructor
  · dsimp only
    field_simp
    ring
  · dsimp only
    ring

theorem c7_hit5 :
    line_intersection (betaC7, 0) (-betaC7, 0) (betaC7 - 5, 1) ((1 : ℝ), (-1 : ℝ)) =
      some ((betaC7 - 4) / 2, 0) := by
  have hb1 := betaC7_gt
  have hb2 := betaC7_lt
  have hbne : betaC7 ≠ 0 := ne_of_gt (by linarith)
  have hd : denomOf (betaC7, 0) (-betaC7, 0) (betaC7 - 5, 1) (1, -1) = 4 * betaC7 := by
    unfold denomOf; dsimp only; ring
  have hu : uParam (betaC7, 0) (-betaC7, 0) (betaC7 - 5, 1) (1, -1) = 1 / 2 := by
    unfold uParam; rw [hd]; dsimp only
    rw [div_eq_div_iff (ne_of_gt (by linarith : (0 : ℝ) < 4 * betaC7)) two_ne_zero]
    ring
  have ht : tParam (betaC7, 0) (-betaC7, 0) (betaC7 - 5, 1) (1, -1) =
      (betaC7 + 4) / (4 * betaC7) := by
    unfold tParam; rw [hd]; dsimp only
    rw [div_eq_div_iff (ne_of_gt (by linarith : (0 : ℝ) < 4 * betaC7))
      (by intro h; exact hbne (by linarith [mul_eq_zero.mp h] : betaC7 = 0) : (4 : ℝ) * betaC7 ≠ 0)]
    ring
  rw [line_intersection,
    if_neg (by
      rw [hd, abs_of_pos (by linarith : (0 : ℝ) < 4 * betaC7), not_lt]
      linarith),
    if_pos ⟨by rw [hu]; norm_num, by rw [hu]; norm_num⟩, ht]
  congr 1
  rw [Prod.mk.injEq]
  constructor
  · dsimp only
    field_simp
    ring
  · dsimp only
    ring

theorem c7_d1 : dedup_step [] ((1 : ℝ), (0 : ℝ)) = [((1 : ℝ), (0 : ℝ))] := by
  rw [dedup_step, if_neg (by simp)]
  rfl

theorem c7_d2 : dedup_step [((1 : ℝ), (0 : ℝ))] ((5 : ℝ), (0 : ℝ)) =
    [((1 : ℝ), (0 : ℝ)), ((5 : ℝ), (0 : ℝ))] := by
  rw [dedup_step, if_neg (by norm_num)]
  rfl

theorem c7_d3 : dedup_step [((1 : ℝ), (0 : ℝ)), ((5 : ℝ), (0 : ℝ))] (betaC7 - 5, 0) =
    [((1 : ℝ), (0 : ℝ)), ((5 : ℝ), (0 : ℝ)), (betaC7 - 5, 0)] := by
  have hb1 := betaC7_gt
  have hb2 := betaC7_lt
  rw [dedup_step, if_neg]
  · rfl
  · rintro ⟨e, he, h1, h2⟩
    rcases List.mem_cons.mp he with rfl | he2
    · norm_num [abs_lt] at h1
      linarith [h1.1]
    · rcases List.mem_cons.mp he2 with rfl | he3
      · norm_num [abs_lt] at h1
        linarith [h1.1]
      · exact absurd he3 (List.not_mem_nil _)

theorem c7_d4 : dedup_step [((1 : ℝ), (0 : ℝ)), ((5 : ℝ), (0 : ℝ)), (betaC7 - 5, 0)]
    ((betaC7 - 4) / 2, 0) =
    [((1 : ℝ), (0 : ℝ)), ((5 : ℝ), (0 : ℝ)), (betaC7 - 5, 0), ((betaC7 - 4) / 2, 0)] := by
  have hb1 := betaC7_gt
  have hb2 := betaC7_lt
  rw [dedup_step, if_neg]
  · rfl
  · rintro ⟨e, he, h1, h2⟩
    rcases List.mem_cons.mp he with rfl | he2
    · norm_num [abs_lt] at h1
      linarith [h1.2]
    · rcases List.mem_cons.mp he2 with rfl | he3
      · norm_num [abs_lt] at h1
        linarith [h1.1]
      · rcases List.mem_cons.mp he3 with rfl | he4
        · norm_num [abs_lt] at h1
          linarith [h1.2]
        · exact absurd he4 (List.not_mem_nil _)

theorem c7_hits : edge_hits (betaC7, 0) (-betaC7, 0) c7Poly =
    [((1 : ℝ), (0 : ℝ)), ((5 : ℝ), (0 : ℝ)), (betaC7 - 5, 0), ((betaC7 - 4) / 2, 0)] := by
  have e0 : line_intersection (betaC7, 0) (-betaC7, 0) (c7Poly.getD 0 (0, 0))
      (c7Poly.getD ((0 + 1) % c7Poly.length) (0, 0)) = some ((1 : ℝ), (0 : ℝ)) := c7_hit0
  have e1 : line_intersection (betaC7, 0) (-betaC7, 0) (c7Poly.getD 1 (0, 0))
      (c7Poly.getD ((1 + 1) % c7Poly.length) (0, 0)) = none := c7_hit1
  have e2 : line_intersection (betaC7, 0) (-betaC7, 0) (c7Poly.getD 2 (0, 0))
      (c7Poly.getD ((2 + 1) % c7Poly.length) (0, 0)) = some ((5 : ℝ), (0 : ℝ)) := c7_hit2
  have e3 : line_intersection (betaC7, 0) (-betaC7, 0) (c7Poly.getD 3 (0, 0))
      (c7Poly.getD ((3 + 1) % c7Poly.length) (0, 0)) = none := c7_hit3
  have e4 : line_intersection (betaC7, 0) (-betaC7, 0) (c7Poly.getD 4 (0, 0))
      (c7Poly.getD ((4 + 1) % c7Poly.length) (0, 0)) = some (betaC7 - 5, 0) := c7_hit4
  have e5 : line_intersection (betaC7, 0) (-betaC7, 0) (c7Poly.getD 5 (0, 0))
      (c7Poly.getD ((5 + 1) % c7Poly.length) (0, 0)) = some ((betaC7 - 4) / 2, 0) := c7_hit5
  have hrange : List.range c7Poly.length = [0, 1, 2, 3, 4, 5] := by
    norm_num [c7Poly, List.range_succ]
  rw [edge_hits, hrange, List.filterMap_cons, List.filterMap_cons, List.filterMap_cons,
    List.filterMap_cons, List.filterMap_cons, List.filterMap_cons, List.filterMap_nil,
    e0, e1, e2, e3, e4, e5]

theorem c7_clip : line_polygon_intersections (betaC7, 0) (-betaC7, 0) c7Poly =
    [((1 : ℝ), (0 : ℝ)), ((5 : ℝ), (0 : ℝ)), (betaC7 - 5, 0), ((betaC7 - 4) / 2, 0)] := by
  rw [line_polygon_intersections, c7_hits, List.foldl_cons, List.foldl_cons, List.foldl_cons,
    List.foldl_cons, List.foldl_nil, c7_d1, c7_d2, c7_d3, c7_d4]

theorem orderedInsert_nil' {α : Type} (r : α → α → Prop) [DecidableRel r] (a : α) :
    List.orderedInsert r a [] = [a] := rfl

theorem orderedInsert_cons_pos {α : Type} (r : α → α → Prop) [DecidableRel r] (a b : α)
    (l : List α) (h : r a b) : List.orderedInsert r a (b :: l) = a :: b :: l := by
  rw [List.orderedInsert, if_pos h]

theorem orderedInsert_cons_neg {α : Type} (r : α → α → Prop) [DecidableRel r] (a b : α)
    (l : List α) (h : ¬ r a b) :
    List.orderedInsert r a (b :: l) = b :: List.orderedInsert r a l := by
  rw [List.orderedInsert, if_neg h]

theorem c7_gli : get_line_intersections_only 0 0 0 c7Poly =
    [((1 : ℝ), (0 : ℝ)), ((betaC7 - 4) / 2, 0), ((5 : ℝ), (0 : ℝ)), (betaC7 - 5, 0)] := by
  have hb1 := betaC7_gt
  have hb2 := betaC7_lt
  have aA : |betaC7 - 5 - betaC7| = 5 := by
    rw [abs_of_neg (by linarith : betaC7 - 5 - betaC7 < 0)]; ring
  have aB : |(betaC7 - 4) / 2 - betaC7| = (betaC7 + 4) / 2 := by
    rw [abs_of_neg (by linarith : (betaC7 - 4) / 2 - betaC7 < 0)]; ring
  have aC : |(5 : ℝ) - betaC7| = 5 - betaC7 := by
    rw [abs_of_pos (by linarith : (0 : ℝ) < 5 - betaC7)]
  have aD : |(1 : ℝ) - betaC7| = 1 - betaC7 := by
    rw [abs_of_pos (by linarith : (0 : ℝ) < 1 - betaC7)]
  have cmpA : ¬ calculate_distance (betaC7, 0) (betaC7 - 5, 0) ≤
      calculate_distance (betaC7, 0) ((betaC7 - 4) / 2, 0) :=
    c7_cmp_not (by rw [aA]; norm_num) (by rw [aB]; linarith) (by rw [aA, aB]; linarith)
  have cmpB : ¬ calculate_distance (betaC7, 0) (5, 0) ≤
      calculate_distance (betaC7, 0) ((betaC7 - 4) / 2, 0) :=
    c7_cmp_not (by rw [aC]; linarith) (by rw [aB]; linarith) (by rw [aC, aB]; linarith)
  have cmpC : calculate_distance (betaC7, 0) (5, 0) ≤
      calculate_distance (betaC7, 0) (betaC7 - 5, 0) :=
    c7_cmp (by rw [aC]; linarith) (by rw [aA]; norm_num) (by rw [aC, aA]; linarith)
  have cmpD : calculate_distance (betaC7, 0) (1, 0) ≤
      calculate_distance (betaC7, 0) ((betaC7 - 4) / 2, 0) :=
    c7_cmp (by rw [aD]; linarith) (by rw [aB]; linarith) (by rw [aD, aB]; linarith)
  simp only [get_line_intersections_only]
  rw [c7_probe]
  dsimp only
  rw [c7_clip, if_pos (by norm_num)]
  rw [List.insertionSort, List.insertionSort, List.insertionSort, List.insertionSort,
    List.insertionSort]
  rw [orderedInsert_nil',
    orderedInsert_cons_neg (fun a b : ℝ × ℝ => calculate_distance (betaC7, 0) a ≤
      calculate_distance (betaC7, 0) b) _ _ _ cmpA,
    orderedInsert_nil',
    orderedInsert_cons_neg (fun a b : ℝ × ℝ => calculate_distance (betaC7, 0) a ≤
      calculate_distance (betaC7, 0) b) _ _ _ cmpB,
    orderedInsert_cons_pos (fun a b : ℝ × ℝ => calculate_distance (betaC7, 0) a ≤
      calculate_distance (betaC7, 0) b) _ _ _ cmpC,
    orderedInsert_cons_pos (fun a b : ℝ × ℝ => calculate_distance (betaC7, 0) a ≤
      calculate_distance (betaC7, 0) b) _ _ _ cmpD]

theorem c7_pi : probe_inters_at 0 0 0 0 c7Poly 0 =
    [((1 : ℝ), (0 : ℝ)), ((betaC7 - 4) / 2, 0), ((5 : ℝ), (0 : ℝ)), (betaC7 - 5, 0)] := by
  simp only [probe_inters_at]
  rw [c7_op]
  dsimp only
  exact c7_gli

theorem c7_mk : mk_scan_line 0 0 0 0 c7Poly 0 = some c7Line := by
  have hb1 := betaC7_gt
  have hb2 := betaC7_lt
  have z1 : |(5 : ℝ) - 0| = 5 := by norm_num
  have z2 : |betaC7 - 5 - 0| = 5 - betaC7 := by
    rw [abs_of_neg (by linarith : betaC7 - 5 - 0 < 0)]; ring
  have z3 : |(betaC7 - 4) / 2 - 0| = (4 - betaC7) / 2 := by
    rw [abs_of_neg (by linarith : (betaC7 - 4) / 2 - 0 < 0)]; ring
  have z4 : |(1 : ℝ) - 0| = 1 := by norm_num
  have cmpE : ¬ calculate_distance ((0 : ℝ), (0 : ℝ)) (5, 0) ≤
      calculate_distance ((0 : ℝ), (0 : ℝ)) (betaC7 - 5, 0) :=
    c7_cmp_not (by rw [z1]; norm_num) (by rw [z2]; linarith) (by rw [z1, z2]; linarith)
  have cmpF : calculate_distance ((0 : ℝ), (0 : ℝ)) ((betaC7 - 4) / 2, 0) ≤
      calculate_distance ((0 : ℝ), (0 : ℝ)) (betaC7 - 5, 0) :=
    c7_cmp (by rw [z3]; linarith) (by rw [z2]; linarith) (by rw [z3, z2]; linarith)
  have cmpG : calculate_distance ((0 : ℝ), (0 : ℝ)) (1, 0) ≤
      calculate_distance ((0 : ℝ), (0 : ℝ)) ((betaC7 - 4) / 2, 0) :=
    c7_cmp (by rw [z4]; norm_num) (by rw [z3]; linarith) (by rw [z4, z3]; linarith)
  simp only [mk_scan_line]
  rw [c7_op, c7_pi, if_pos (by norm_num)]
  rw [List.insertionSort, List.insertionSort, List.insertionSort, List.insertionSort,
    List.insertionSort]
  rw [orderedInsert_nil',
    orderedInsert_cons_neg (fun a b : ℝ × ℝ => calculate_distance ((0 : ℝ), (0 : ℝ)) a ≤
      calculate_distance ((0 : ℝ), (0 : ℝ)) b) _ _ _ cmpE,
    orderedInsert_nil',
    orderedInsert_cons_pos (fun a b : ℝ × ℝ => calculate_distance ((0 : ℝ), (0 : ℝ)) a ≤
      calculate_distance ((0 : ℝ), (0 : ℝ)) b) _ _ _ cmpF,
    orderedInsert_cons_pos (fun a b : ℝ × ℝ => calculate_distance ((0 : ℝ), (0 : ℝ)) a ≤
      calculate_distance ((0 : ℝ), (0 : ℝ)) b) _ _ _ cmpG]
  rfl

/-- C7 (amended): a scan line is retained exactly when clipping its probe
against the buffered polygon yields at least two distinct intersection points;
every retained line stores the clipped set re-sorted by haversine distance from
the probe's offset point and records that re-sorted list's first and last
points — the nearest and farthest intersections from the offset point, which
need not be the along-line entry and exit once more than two intersections
survive; every line a completed run collects comes from some probe; and the
orderer emits exactly two consecutive waypoints (one oriented block) per line,
so the waypoint count is `2 ×` the number of retained lines. -/
theorem C7_retention_and_count :
    (∀ (cLat cLon perp brg : ℝ) (poly : List (ℝ × ℝ)) (off : ℝ),
      (mk_scan_line cLat cLon perp brg poly off).isSome ↔
        2 ≤ (line_polygon_intersections
          (probe_ends (point_at_bearing_and_distance cLat cLon perp off).1
            (point_at_bearing_and_distance cLat cLon perp off).2 brg).1
          (probe_ends (point_at_bearing_and_distance cLat cLon perp off).1
            (point_at_bearing_and_distance cLat cLon perp off).2 brg).2 poly).length) ∧
    (∀ (cLat cLon perp brg : ℝ) (poly : List (ℝ × ℝ)) (off : ℝ) (l : ScanLine),
      mk_scan_line cLat cLon perp brg poly off = some l →
        l.offset = off ∧ l.startP = l.inters.headD (0, 0) ∧
        l.endP = l.inters.getLastD (0, 0) ∧
        l.inters.Perm (line_polygon_intersections
          (probe_ends (point_at_bearing_and_distance cLat cLon perp off).1
            (point_at_bearing_and_distance cLat cLon perp off).2 brg).1
          (probe_ends (point_at_bearing_and_distance cLat cLon perp off).1
            (point_at_bearing_and_distance cLat cLon perp off).2 brg).2 poly) ∧
        List.Sorted (fun a b : ℝ × ℝ =>
          calculate_distance (point_at_bearing_and_distance cLat cLon perp off) a ≤
            calculate_distance (point_at_bearing_and_distance cLat cLon perp off) b)
          l.inters) ∧
    (∀ (cfg : Config) (p : List (ℝ × ℝ)) (off : ℝ),
      mkLineOf cfg p off = mk_scan_line (sweepSetup cfg p).cLat (sweepSetup cfg p).cLon
        (sweepSetup cfg p).perp (sweepSetup cfg p).ls.brg (sweepSetup cfg p).bp off) ∧
    (∀ (cfg : Config) (p : List (ℝ × ℝ)) (L : List ScanLine),
      allLinesOf cfg p = some L → ∀ l ∈ L, ∃ off, mkLineOf cfg p off = some l) ∧
    (∀ (lines : List ScanLine) (corners : Option CornersT) (home : Option (ℝ × ℝ)),
      (optimize_line_ordering_for_corners lines corners home).length = 2 * lines.length ∧
      ∃ (ord : List ScanLine) (ds : List Bool), ord.Perm lines ∧ ds.length = ord.length ∧
        optimize_line_ordering_for_corners lines corners home =
          (List.zipWith emitBlock ds ord).flatten) := by
  refine ⟨mk_scan_line_isSome_iff, mk_scan_line_some_shape, fun cfg p off => rfl, ?_,
    fun lines corners home =>
      ⟨optimize_length lines corners home, optimize_blocks lines corners home⟩⟩
  intro cfg p L hL l hl
  revert hL
  simp only [allLinesOf]
  cases h1 : sweepAux (mkLineOf cfg p) (sweepSetup cfg p).s (sweepSetup cfg p).M (-1)
      (sweepFuel (sweepSetup cfg p).s (sweepSetup cfg p).M) 0 with
  | none => intro hL; exact absurd hL (by simp)
  | some a =>
    cases h2 : sweepAux (mkLineOf cfg p) (sweepSetup cfg p).s (sweepSetup cfg p).M 1
        (sweepFuel (sweepSetup cfg p).s (sweepSetup cfg p).M) 0 with
    | none => intro hL; exact absurd hL (by simp)
    | some b =>
      intro hL
      have hL2 : sortLines (a ++ b) = L := by simpa using hL
      have hl2 : l ∈ List.insertionSort (fun x y : ScanLine => x.offset ≤ y.offset)
          (a ++ b) := by
        rw [show List.insertionSort (fun x y : ScanLine => x.offset ≤ y.offset) (a ++ b) =
          sortLines (a ++ b) from rfl, hL2]
        exact hl
      have hmem : l ∈ a ++ b :=
        (List.perm_insertionSort (fun x y : ScanLine => x.offset ≤ y.offset)
          (a ++ b)).mem_iff.mp hl2
      rcases List.mem_append.mp hmem with hm | hm
      · exact sweep_mem h1 l hm
      · exact sweep_mem h2 l hm

/-- C7 (counterexample): a retained line whose stored endpoints are not the
entry and exit points.  The probe at offset `0` over `c7Poly` keeps four
distinct intersections; sorted by distance from the probe endpoint (the spec's
entry/exit order, `probe_inters_at`) they run from `(1, 0)` (entry) to
`(betaC7 - 5, 0)` (exit), but the code stores the nearest/farthest points from
the offset point, `(1, 0)` and `(5, 0)` — the exit point is not among the
stored endpoints at all. -/
theorem C7_counterexample :
    mk_scan_line 0 0 0 0 c7Poly 0 = some c7Line ∧
    4 ≤ (probe_inters_at 0 0 0 0 c7Poly 0).length ∧
    (probe_inters_at 0 0 0 0 c7Poly 0).headD (0, 0) = ((1 : ℝ), (0 : ℝ)) ∧
    (probe_inters_at 0 0 0 0 c7Poly 0).getLastD (0, 0) = (betaC7 - 5, 0) ∧
    c7Line.startP = ((1 : ℝ), (0 : ℝ)) ∧ c7Line.endP = ((5 : ℝ), (0 : ℝ)) ∧
    c7Line.endP ≠ (probe_inters_at 0 0 0 0 c7Poly 0).getLastD (0, 0) ∧
    (probe_inters_at 0 0 0 0 c7Poly 0).getLastD (0, 0) ∉ [c7Line.startP, c7Line.endP] := by
  have hb1 := betaC7_gt
  have hb2 := betaC7_lt
  refine ⟨c7_mk, ?_, ?_, ?_, rfl, rfl, ?_, ?_⟩
  · rw [c7_pi]
    norm_num
  · rw [c7_pi]
    rfl
  · rw [c7_pi]
    rfl
  · rw [c7_pi]
    intro h
    have h5 : (5 : ℝ) = betaC7 - 5 := congrArg Prod.fst h
    linarith
  · rw [c7_pi]
    intro hmem
    rcases List.mem_cons.mp hmem with h | h
    · have h1 : betaC7 - 5 = (1 : ℝ) := congrArg Prod.fst h
      linarith
    · rcases List.mem_cons.mp h with h2 | h2
      · have h1 : betaC7 - 5 = (5 : ℝ) := congrArg Prod.fst h2
        linarith
      · exact absurd h2 (List.not_mem_nil _)

/-! ### C5 — dominant bearing of the longest side, first-wins tie-break -/

theorem sin_eq_zero_of_cos_one {x : ℝ} (hx : Real.cos x = 1) : Real.sin x = 0 := by
  have h1 := Real.sin_sq_add_cos_sq x
  have h2 : Real.sin x ^ 2 = 0 := by nlinarith
  exact pow_eq_zero_iff two_ne_zero |>.mp h2

theorem sin_eq_zero_of_cos_neg_one {x : ℝ} (hx : Real.cos x = -1) : Real.sin x = 0 := by
  have h1 := Real.sin_sq_add_cos_sq x
  have h2 : Real.sin x ^ 2 = 0 := by nlinarith
  exact pow_eq_zero_iff two_ne_zero |>.mp h2

/-- When the computed haversine distance of two points is zero, both components
of the computed forward azimuth vanish, so the normalised bearing is `0` — the
same value the loop's never-updated accumulator holds. -/
theorem bearing_deg_eq_zero_of_dist_zero {p1 p2 : ℝ × ℝ}
    (h : calculate_distance p1 p2 = 0) : bearing_deg p1 p2 = 0 := by
  have ha : havTerm p1 p2 = 0 := havTerm_zero_of_dist_zero h
  set φ1 := toRadians p1.1 with hφ1
  set φ2 := toRadians p2.1 with hφ2
  set δ := toRadians p2.2 - toRadians p1.2 with hδ
  have hyx : Real.sin δ * Real.cos φ2 = 0 ∧
      Real.cos φ1 * Real.sin φ2 - Real.sin φ1 * Real.cos φ2 * Real.cos δ = 0 := by
    have heq := havTerm_eq p1 p2
    rw [ha] at heq
    set a1 := Real.cos (φ2 - φ1) with ha1
    set a2 := Real.cos (φ2 + φ1) with ha2
    set a3 := Real.cos δ with ha3
    have hb1 : a1 ≤ 1 := Real.cos_le_one _
    have hb1' : -1 ≤ a1 := Real.neg_one_le_cos _
    have hb2 : a2 ≤ 1 := Real.cos_le_one _
    have hb2' : -1 ≤ a2 := Real.neg_one_le_cos _
    have hb3 : a3 ≤ 1 := Real.cos_le_one _
    have hb3' : -1 ≤ a3 := Real.neg_one_le_cos _
    have hP1 : (1 - a1) * (1 + a3) = 0 := by
      nlinarith [mul_nonneg (by linarith : (0:ℝ) ≤ 1 - a1) (by linarith : (0:ℝ) ≤ 1 + a3),
        mul_nonneg (by linarith : (0:ℝ) ≤ 1 + a2) (by linarith : (0:ℝ) ≤ 1 - a3)]
    have hP2 : (1 + a2) * (1 - a3) = 0 := by
      nlinarith [mul_nonneg (by linarith : (0:ℝ) ≤ 1 - a1) (by linarith : (0:ℝ) ≤ 1 + a3),
        mul_nonneg (by linarith : (0:ℝ) ≤ 1 + a2) (by linarith : (0:ℝ) ≤ 1 - a3)]
    rcases mul_eq_zero.mp hP1 with h1 | h1
    · have ha1v : Real.cos (φ2 - φ1) = 1 := by rw [← ha1]; linarith
      have hsinΔ : Real.sin (φ2 - φ1) = 0 := sin_eq_zero_of_cos_one ha1v
      obtain ⟨n, hn⟩ := (Real.cos_eq_one_iff _).mp ha1v
      have hcos2 : Real.cos φ2 = Real.cos φ1 := by
        rw [show φ2 = φ1 + (n : ℝ) * (2 * Real.pi) by linarith]
        exact Real.cos_add_int_mul_two_pi _ _
      rcases mul_eq_zero.mp hP2 with h2 | h2
      · have ha2v : Real.cos (φ2 + φ1) = -1 := by rw [← ha2]; linarith
        have hid : Real.cos (φ2 - φ1) + Real.cos (φ2 + φ1) =
            2 * (Real.cos φ1 * Real.cos φ2) := by
          rw [Real.cos_sub, Real.cos_add]; ring
        have hprod : Real.cos φ1 * Real.cos φ2 = 0 := by
          rw [ha1v, ha2v] at hid; linarith
        have hc1 : Real.cos φ1 = 0 := by
          rw [hcos2] at hprod
          exact mul_self_eq_zero.mp hprod
        have hc2 : Real.cos φ2 = 0 := by rw [hcos2]; exact hc1
        exact ⟨by rw [hc2]; ring, by rw [hc1, hc2]; ring⟩
      · have ha3v : Real.cos δ = 1 := by rw [← ha3]; linarith
        have hsinδ : Real.sin δ = 0 := sin_eq_zero_of_cos_one ha3v
        refine ⟨by rw [hsinδ]; ring, ?_⟩
        rw [show a3 = (1 : ℝ) by linarith, mul_one]
        have hss := Real.sin_sub φ2 φ1
        linear_combination hsinΔ - hss
    · have ha3v : Real.cos δ = -1 := by rw [← ha3]; linarith
      have hsinδ : Real.sin δ = 0 := sin_eq_zero_of_cos_neg_one ha3v
      have ha2v : Real.cos (φ2 + φ1) = -1 := by
        rw [← ha3] at ha3v
        rw [← ha2]
        nlinarith [hP2]
      have hsinσ : Real.sin (φ2 + φ1) = 0 := sin_eq_zero_of_cos_neg_one ha2v
      refine ⟨by rw [hsinδ]; ring, ?_⟩
      rw [show a3 = (-1 : ℝ) by linarith]
      have hsa := Real.sin_add φ2 φ1
      linear_combination hsinσ - hsa
  have hraw : bearing_raw p1 p2 = toDegrees (atan2 (Real.sin δ * Real.cos φ2)
      (Real.cos φ1 * Real.sin φ2 - Real.sin φ1 * Real.cos φ2 * Real.cos δ)) := rfl
  have hat : atan2 0 0 = 0 := by
    unfold atan2
    norm_num
  rw [bearing_deg, hraw, hyx.1, hyx.2, hat]
  unfold toDegrees pymod
  rw [show (0 : ℝ) * 180 / Real.pi = 0 by ring]
  rw [show (0 : ℝ) + 360 = 360 by ring, show (360 : ℝ) / 360 = 1 by norm_num, Int.floor_one]
  norm_num

/-- C5: the returned dominant bearing, length, index and endpoints are those of
the edge of maximum haversine length, with exact ties resolved toward the first
edge in input order (strict `>` update), deterministically. -/
theorem C5_longest_side (p : List (ℝ × ℝ)) (h3 : 3 ≤ p.length) :
    (find_longest_side_with_bearing p).idx < p.length ∧
    (∀ j < p.length, edgeLen p j ≤ edgeLen p (find_longest_side_with_bearing p).idx) ∧
    (∀ j < (find_longest_side_with_bearing p).idx,
      edgeLen p j < edgeLen p (find_longest_side_with_bearing p).idx) ∧
    (find_longest_side_with_bearing p).len = edgeLen p (find_longest_side_with_bearing p).idx ∧
    (find_longest_side_with_bearing p).brg = edgeBrg p (find_longest_side_with_bearing p).idx ∧
    (find_longest_side_with_bearing p).sp =
      p.getD (find_longest_side_with_bearing p).idx (0, 0) ∧
    (find_longest_side_with_bearing p).ep =
      p.getD (((find_longest_side_with_bearing p).idx + 1) % p.length) (0, 0) := by
  have hfold : find_longest_side_with_bearing p =
      (List.range p.length).foldl (ls_step p)
        ⟨0, 0, 0, p.getD 0 (0, 0), p.getD 1 (0, 0)⟩ := by
    unfold find_longest_side_with_bearing
    rw [if_neg (Nat.not_lt.mpr h3)]
  have key : ∀ k : ℕ,
      (∀ j < k, edgeLen p j ≤
        ((List.range k).foldl (ls_step p) ⟨0, 0, 0, p.getD 0 (0, 0), p.getD 1 (0, 0)⟩).len) ∧
      (((List.range k).foldl (ls_step p) ⟨0, 0, 0, p.getD 0 (0, 0), p.getD 1 (0, 0)⟩ =
          (⟨0, 0, 0, p.getD 0 (0, 0), p.getD 1 (0, 0)⟩ : LSState)) ∨
       (((List.range k).foldl (ls_step p) ⟨0, 0, 0, p.getD 0 (0, 0), p.getD 1 (0, 0)⟩).idx < k ∧
        ((List.range k).foldl (ls_step p) ⟨0, 0, 0, p.getD 0 (0, 0), p.getD 1 (0, 0)⟩).len =
          edgeLen p ((List.range k).foldl (ls_step p)
            ⟨0, 0, 0, p.getD 0 (0, 0), p.getD 1 (0, 0)⟩).idx ∧
        (∀ j < ((List.range k).foldl (ls_step p)
            ⟨0, 0, 0, p.getD 0 (0, 0), p.getD 1 (0, 0)⟩).idx,
          edgeLen p j < ((List.range k).foldl (ls_step p)
            ⟨0, 0, 0, p.getD 0 (0, 0), p.getD 1 (0, 0)⟩).len) ∧
        ((List.range k).foldl (ls_step p) ⟨0, 0, 0, p.getD 0 (0, 0), p.getD 1 (0, 0)⟩).brg =
          edgeBrg p ((List.range k).foldl (ls_step p)
            ⟨0, 0, 0, p.getD 0 (0, 0), p.getD 1 (0, 0)⟩).idx ∧
        ((List.range k).foldl (ls_step p) ⟨0, 0, 0, p.getD 0 (0, 0), p.getD 1 (0, 0)⟩).sp =
          p.getD ((List.range k).foldl (ls_step p)
            ⟨0, 0, 0, p.getD 0 (0, 0), p.getD 1 (0, 0)⟩).idx (0, 0) ∧
        ((List.range k).foldl (ls_step p) ⟨0, 0, 0, p.getD 0 (0, 0), p.getD 1 (0, 0)⟩).ep =
          p.getD ((((List.range k).foldl (ls_step p)
            ⟨0, 0, 0, p.getD 0 (0, 0), p.getD 1 (0, 0)⟩).idx + 1) % p.length) (0, 0))) := by
    intro k
    induction k with
    | zero =>
      refine ⟨fun j hj => absurd hj (Nat.not_lt_zero j), Or.inl ?_⟩
      simp
    | succ k ih =>
      rw [List.range_succ, List.foldl_append, List.foldl_cons, List.foldl_nil]
      obtain ⟨ih1, ih2⟩ := ih
      set st := (List.range k).foldl (ls_step p)
        (⟨0, 0, 0, p.getD 0 (0, 0), p.getD 1 (0, 0)⟩ : LSState) with hst
      by_cases hup : st.len < edgeLen p k
      · have hstep : ls_step p st k = ⟨k, edgeLen p k, edgeBrg p k, p.getD k (0, 0),
            p.getD ((k + 1) % p.length) (0, 0)⟩ := by
          unfold ls_step
          rw [if_pos hup]
        rw [hstep]
        refine ⟨?_, Or.inr ⟨Nat.lt_succ_self k, rfl, ?_, rfl, rfl, rfl⟩⟩
        · intro j hj
          rcases Nat.lt_succ_iff_lt_or_eq.mp hj with hj | hj
          · exact le_of_lt (lt_of_le_of_lt (ih1 j hj) hup)
          · subst hj; exact le_refl _
        · intro j hj
          exact lt_of_le_of_lt (ih1 j hj) hup
      · have hstep : ls_step p st k = st := by
          unfold ls_step
          rw [if_neg hup]
        rw [hstep]
        refine ⟨?_, ?_⟩
        · intro j hj
          rcases Nat.lt_succ_iff_lt_or_eq.mp hj with hj | hj
          · exact ih1 j hj
          · subst hj; exact not_lt.mp hup
        · rcases ih2 with h | ⟨hidx, hrest⟩
          · exact Or.inl h
          · exact Or.inr ⟨Nat.lt_succ_of_lt hidx, hrest⟩
  obtain ⟨hub, hdis⟩ := key p.length
  rw [hfold]
  set st := (List.range p.length).foldl (ls_step p)
    (⟨0, 0, 0, p.getD 0 (0, 0), p.getD 1 (0, 0)⟩ : LSState) with hst
  rcases hdis with hinit | ⟨hidx, hlen, hfw, hbrg, hsp, hep⟩
  · have hL0 : edgeLen p 0 = 0 := by
      have h0 := hub 0 (by omega)
      rw [hinit] at h0
      exact le_antisymm h0 (calculate_distance_nonneg _ _)
    have hmod : 1 % p.length = 1 := Nat.mod_eq_of_lt (by omega)
    rw [hinit]
    refine ⟨lt_of_lt_of_le (by norm_num : (0 : ℕ) < 3) h3, ?_, ?_, ?_, ?_, rfl, ?_⟩
    · intro j hj
      have := hub j hj
      rw [hinit] at this
      show edgeLen p j ≤ edgeLen p 0
      rw [hL0]
      exact this
    · intro j hj
      exact absurd hj (Nat.not_lt_zero j)
    · show (0 : ℝ) = edgeLen p 0
      exact hL0.symm
    · show (0 : ℝ) = edgeBrg p 0
      exact (bearing_deg_eq_zero_of_dist_zero hL0).symm
    · show p.getD 1 (0, 0) = p.getD ((0 + 1) % p.length) (0, 0)
      rw [show (0 + 1) % p.length = 1 % p.length from rfl, hmod]
  · exact ⟨hidx, fun j hj => hlen ▸ hub j hj, fun j hj => hlen ▸ hfw j hj, hlen, hbrg, hsp, hep⟩

/-- C5 (witness): the longest-side theorem applied to the unit square. -/
theorem C5_witness :
    3 ≤ sqPoly.length ∧
    ((find_longest_side_with_bearing sqPoly).idx < sqPoly.length ∧
    (∀ j < sqPoly.length, edgeLen sqPoly j ≤
      edgeLen sqPoly (find_longest_side_with_bearing sqPoly).idx) ∧
    (∀ j < (find_longest_side_with_bearing sqPoly).idx,
      edgeLen sqPoly j < edgeLen sqPoly (find_longest_side_with_bearing sqPoly).idx) ∧
    (find_longest_side_with_bearing sqPoly).len =
      edgeLen sqPoly (find_longest_side_with_bearing sqPoly).idx ∧
    (find_longest_side_with_bearing sqPoly).brg =
      edgeBrg sqPoly (find_longest_side_with_bearing sqPoly).idx ∧
    (find_longest_side_with_bearing sqPoly).sp =
      sqPoly.getD (find_longest_side_with_bearing sqPoly).idx (0, 0) ∧
    (find_longest_side_with_bearing sqPoly).ep =
      sqPoly.getD (((find_longest_side_with_bearing sqPoly).idx + 1) % sqPoly.length) (0, 0)) :=
  ⟨by norm_num [sqPoly], C5_longest_side sqPoly (by norm_num [sqPoly])⟩

/-- C7 (witness): the amended retention/shape/count theorem exercised on a
concretely retained scan line — the probe at offset `0` over `c7Poly` keeps
four distinct intersections, the stored record has exactly the theorem's shape
(offset, offset-point-sorted permutation of the clip, first/last as endpoints),
and the orderer emits exactly two waypoints for the single retained line. -/
theorem C7_witness :
    mk_scan_line 0 0 0 0 c7Poly 0 = some c7Line ∧
    c7Line.offset = 0 ∧ c7Line.startP = c7Line.inters.headD (0, 0) ∧
    c7Line.endP = c7Line.inters.getLastD (0, 0) ∧
    c7Line.inters.Perm (line_polygon_intersections
      (probe_ends (point_at_bearing_and_distance 0 0 0 0).1
        (point_at_bearing_and_distance 0 0 0 0).2 0).1
      (probe_ends (point_at_bearing_and_distance 0 0 0 0).1
        (point_at_bearing_and_distance 0 0 0 0).2 0).2 c7Poly) ∧
    List.Sorted (fun a b : ℝ × ℝ =>
      calculate_distance (point_at_bearing_and_distance 0 0 0 0) a ≤
        calculate_distance (point_at_bearing_and_distance 0 0 0 0) b) c7Line.inters ∧
    (optimize_line_ordering_for_corners [c7Line] none none).length = 2 * [c7Line].length := by
  obtain ⟨-, hshape, -, -, hcount⟩ := C7_retention_and_count
  obtain ⟨h1, h2, h3, h4, h5⟩ := hshape 0 0 0 0 c7Poly 0 c7Line c7_mk
  exact ⟨c7_mk, h1, h2, h3, h4, h5, (hcount [c7Line] none none).1⟩

end
